import Mathlib

/-!
# The example Windows service: control loop of `myservice.Execute`

Shallow embedding of `src/example/service.go`.  `Execute` runs a main goroutine (the
`select` loop) and, for every `PreShutdown` request it handles, one more goroutine (the
drain).  The goroutines share the variable `checkpoint`, the channel `shutdown` and the
status sink `changes`.  The embedding is a step function on an explicit state: an
`Action` names which goroutine moves and, for the `select`, which case is taken.  One step
is one statement-level piece of the source (at most one channel send); the status sink is
always ready to receive.  A schedule is a list of actions; an action that is not possible
where it stands (a `select` case that is not ready, a goroutine that has ended) makes the
run `none`.  The second `close(shutdown)` panics, after which no action is possible; the
drains may still move after `Execute` has returned.  Each status sent is kept with a tag
that tells which statement sent it.

`checkpoint` is shared without synchronisation.  `step` takes a read of it together with
the send that uses it, and `checkpoint++` with the test after it, as one step.  For a run
with one drain this loses nothing about what the drain sends, since that drain is the only
goroutine that writes the counter; every run of `step` is a run of the program.  The
statement where the main goroutine reads the counter while a drain may write it is line
86: `stepSplit` takes that send in its two pieces, evaluation of the operand and
communication.  The properties proved for every schedule below order no status of one
goroutine against a status of another, except the final status after the drain has closed
`shutdown`, which line 34 receives before line 86 reads the counter.
-/

namespace Service

/-! ## The types of the `svc` package that `Execute` uses -/

namespace svc

/-- Modelled from the spec: the declaration of `svc.State` is not among the sources; these
are the lifecycle states the data model lists. -/
inductive State where
  | Stopped
  | StartPending
  | StopPending
  | Running
  | Paused
  deriving DecidableEq, Repr

/-- Modelled from the spec: the declaration of `svc.Cmd` is not among the sources; the six
named command codes of the data model, and `unknown code` for every other code. -/
inductive Cmd where
  | Interrogate
  | Stop
  | Shutdown
  | PreShutdown
  | Pause
  | Continue
  | unknown (code : Nat)
  deriving DecidableEq, Repr

/-- Modelled from the spec: the declaration of `svc.Accepted` is not among the sources; a
set over the four accepted-command bits of the data model (a bit is a field that is
`true`). -/
structure Accepted where
  stop : Bool
  shutdown : Bool
  pauseAndContinue : Bool
  preShutdown : Bool
  deriving DecidableEq, Repr

/-- The zero value of `Accepted`: no bit set. -/
def Accepted.zero : Accepted := ⟨false, false, false, false⟩

/-- Bitwise or of two accepted-command sets (Go's `|`). -/
def Accepted.or (a b : Accepted) : Accepted :=
  ⟨a.stop || b.stop, a.shutdown || b.shutdown,
   a.pauseAndContinue || b.pauseAndContinue, a.preShutdown || b.preShutdown⟩

def AcceptStop : Accepted := ⟨true, false, false, false⟩
def AcceptShutdown : Accepted := ⟨false, true, false, false⟩
def AcceptPauseAndContinue : Accepted := ⟨false, false, true, false⟩
def AcceptPreShutdown : Accepted := ⟨false, false, false, true⟩

/-- Modelled from the spec: the declaration of `svc.Status` is not among the sources; the
lifecycle state, the accepted set and the two progress fields of the data model
(`CheckPoint` and `WaitHint` are `uint32`). -/
structure Status where
  State : State
  Accepts : Accepted
  CheckPoint : Nat
  WaitHint : Nat
  deriving DecidableEq, Repr

/-- Modelled from the spec: the declaration of `svc.ChangeRequest` is not among the
sources; a command code and the status snapshot it carries. -/
structure ChangeRequest where
  Cmd : Cmd
  CurrentStatus : Status
  deriving DecidableEq, Repr

end svc

open svc

/-! ## State of one run of `Execute` -/

/-- The two tick sources of lines 25-26; `tick` (line 27) is one of them. -/
inductive Ticker where
  | fasttick
  | slowtick
  deriving DecidableEq, Repr

/-- Period of a tick source in milliseconds (lines 25 and 26). -/
def Ticker.period : Ticker → Nat
  | .fasttick => 500
  | .slowtick => 2 * 1000

/-- Where the main goroutine stands. -/
inductive MainPc where
  /-- line 24 is the next statement -/
  | entry
  /-- lines 24-29 are done, line 30 is next -/
  | starting
  /-- blocked in the `select` of line 33 -/
  | select
  /-- in the `Sleep` of line 43: the first echo is sent, the second (line 44) is next -/
  | interrogating (st : Status)
  /-- the loop is left (`break loop`), line 86 is next -/
  | afterLoop
  /-- line 87 is executed: `Execute` has returned -/
  | returned
  deriving DecidableEq, Repr

/-- Where a drain goroutine (lines 48-74) stands. -/
inductive DrainPc where
  /-- launched, line 50 is next -/
  | launched
  /-- the send of line 65 is next -/
  | sending
  /-- in the `Sleep` of line 66; lines 67-72 are next -/
  | sleeping
  /-- the body has returned (line 70); the deferred `close(shutdown)` of line 49 is next -/
  | closing
  /-- the goroutine has ended -/
  | ended
  deriving DecidableEq, Repr

/-- Severity of a log entry: `elog.Info` or `elog.Error`. -/
inductive Severity where
  | info
  | error
  deriving DecidableEq, Repr

/-- The texts `Execute` logs; the text of line 82 is formatted from the request. -/
inductive Msg where
  | preshutdown
  | keepAliveEnd
  | preshutdownTick
  | unexpected (c : ChangeRequest)
  deriving DecidableEq, Repr

/-- One call of `elog.Info` or `elog.Error`: severity, event id, text. -/
structure LogEntry where
  sev : Severity
  eid : Nat
  msg : Msg
  deriving DecidableEq, Repr

/-- Which statement sent a status: one of the main goroutine's own literals (lines 24, 30,
76, 79, 86), an echo of a request's snapshot (lines 41, 44), or drain goroutine number
`i`, counted in launch order from 0 (line 65). -/
inductive Origin where
  | main
  | echo
  | drain (i : Nat)
  deriving DecidableEq, Repr

/-- A status sent on `changes`, with the statement that sent it. -/
structure Emission where
  origin : Origin
  status : Status
  deriving DecidableEq, Repr

/-- The state of a run: the main goroutine's position and locals, the shared variables,
the drain goroutines launched so far, and what the run has done to the outside (statuses
sent, log entries written, beeps), oldest first. -/
structure Sys where
  pc : MainPc
  tick : Ticker
  checkpoint : Nat
  /-- number of `close(shutdown)` executed; the channel is closed when it is positive, and
  the second close panics -/
  closes : Nat
  drains : List DrainPc
  changes : List Emission
  elog : List LogEntry
  beeps : Nat
  ssec : Bool
  errno : Nat
  deriving DecidableEq, Repr

/-- Choice of the scheduler: a case of the `select` (`tick`, `request c`, `shutdown`), the
main goroutine's next statement when it is not at the `select` (`resume`), or the next
piece of drain goroutine `i`. -/
inductive Action where
  | tick
  | request (c : ChangeRequest)
  | shutdown
  | resume
  | drain (i : Nat)
  deriving DecidableEq, Repr

/-! ## The code -/

/-- Line 23. -/
def cmdsAccepted : Accepted :=
  ((AcceptStop.or AcceptShutdown).or AcceptPauseAndContinue).or AcceptPreShutdown

/-- A send `changes <- st`. -/
def send (s : Sys) (o : Origin) (st : Status) : Sys :=
  { s with changes := s.changes ++ [⟨o, st⟩] }

/-- A call of `elog.Info` or `elog.Error`. -/
def logTo (s : Sys) (e : LogEntry) : Sys :=
  { s with elog := s.elog ++ [e] }

/-- The call `beep()` of line 37. -/
def beep (s : Sys) : Sys :=
  { s with beeps := s.beeps + 1 }

/-- The state in which `Execute` is entered: nothing sent, the named results zero. -/
def Execute (_args : List String) : Sys :=
  { pc := .entry, tick := .fasttick, checkpoint := 0, closes := 0, drains := [],
    changes := [], elog := [], beeps := 0, ssec := false, errno := 0 }

/-- The `switch c.Cmd` of lines 39-83, for a request taken at the `select`. -/
def onRequest (s : Sys) (c : ChangeRequest) : Sys :=
  match c.Cmd with
  | .Interrogate =>
      { send s .echo c.CurrentStatus with pc := .interrogating c.CurrentStatus }
  | .Stop => { s with pc := .afterLoop }
  | .Shutdown => { s with pc := .afterLoop }
  | .PreShutdown => { s with drains := s.drains ++ [.launched] }
  | .Pause =>
      { send s .main ⟨.Paused, cmdsAccepted, 0, 0⟩ with tick := .slowtick }
  | .Continue =>
      { send s .main ⟨.Running, cmdsAccepted, 0, 0⟩ with tick := .fasttick }
  | .unknown _ => logTo s ⟨.error, 1, .unexpected c⟩

/-- One piece of drain goroutine `i` (lines 48-74). -/
def drainStep (s : Sys) (i : Nat) : Option Sys :=
  match s.drains[i]? with
  | none => none
  | some .launched =>
      some { logTo s ⟨.info, 1, .preshutdown⟩ with drains := s.drains.set i .sending }
  | some .sending =>
      some { send s (.drain i) ⟨.StopPending, Accepted.zero, s.checkpoint, 3000⟩ with
             drains := s.drains.set i .sleeping }
  | some .sleeping =>
      let cp := (s.checkpoint + 1) % 2 ^ 32
      if cp > 30 then
        some { logTo s ⟨.info, 1, .keepAliveEnd⟩ with
               checkpoint := cp, drains := s.drains.set i .closing }
      else
        some { logTo s ⟨.info, 1, .preshutdownTick⟩ with
               checkpoint := cp, drains := s.drains.set i .sending }
  | some .closing =>
      some { s with closes := s.closes + 1, drains := s.drains.set i .ended }
  | some .ended => none

/-- One statement-level piece of the main goroutine. -/
def mainStep (s : Sys) (a : Action) : Option Sys :=
  match s.pc, a with
  | .entry, .resume =>
      some { send s .main ⟨.StartPending, Accepted.zero, 0, 0⟩ with
             tick := .fasttick, checkpoint := 1, pc := .starting }
  | .starting, .resume =>
      some { send s .main ⟨.Running, cmdsAccepted, 0, 0⟩ with pc := .select }
  | .select, .shutdown =>
      if 0 < s.closes then some { s with pc := .afterLoop } else none
  | .select, .tick => some (beep s)
  | .select, .request c => some (onRequest s c)
  | .interrogating st, .resume => some { send s .echo st with pc := .select }
  | .afterLoop, .resume =>
      some { send s .main ⟨.StopPending, Accepted.zero, s.checkpoint, 0⟩ with
             pc := .returned }
  | _, _ => none

/-- One step of the run.  After a second `close(shutdown)` the process has panicked and
nothing moves. -/
def step (s : Sys) (a : Action) : Option Sys :=
  if 2 ≤ s.closes then none
  else
    match a with
    | .drain i => drainStep s i
    | _ => mainStep s a

/-- Run a schedule; `none` when some action of it is not possible where it stands. -/
def run (s : Sys) : List Action → Option Sys
  | [] => some s
  | a :: sched =>
      match step s a with
      | none => none
      | some s' => run s' sched

/-! ## Line 86 in its two pieces

`step` takes the send of line 86 as one step.  Go evaluates the operand of a send before
the communication, and `checkpoint` is read there without any synchronisation with the
drain that writes it, so a drain can move between the two.  `stepSplit` is `step` with
that one send split. -/

/-- State of a run in which line 86 is split: the state of the run, and the operand of
line 86 from its evaluation until its communication. -/
structure SplitSys where
  sys : Sys
  operand : Option Status
  deriving DecidableEq, Repr

/-- One step with line 86 split.  With the loop left and no operand yet, the main
goroutine's step evaluates `svc.Status{State: svc.StopPending, CheckPoint: checkpoint}`;
with the operand evaluated, its step communicates it and returns, and until then only
drains move.  Every other step is the step of `step`. -/
def stepSplit (f : SplitSys) (a : Action) : Option SplitSys :=
  match f.operand with
  | none =>
      match f.sys.pc, a with
      | .afterLoop, .resume =>
          if 2 ≤ f.sys.closes then none
          else
            some { f with
              operand := some ⟨.StopPending, Accepted.zero, f.sys.checkpoint, 0⟩ }
      | _, _ =>
          match step f.sys a with
          | none => none
          | some s => some { f with sys := s }
  | some st =>
      match a with
      | .resume =>
          if 2 ≤ f.sys.closes then none
          else some ⟨{ send f.sys .main st with pc := .returned }, none⟩
      | .drain i =>
          match step f.sys (.drain i) with
          | none => none
          | some s => some { f with sys := s }
      | _ => none

/-- Run a schedule with line 86 split. -/
def runSplit (f : SplitSys) : List Action → Option SplitSys
  | [] => some f
  | a :: sched =>
      match stepSplit f a with
      | none => none
      | some f' => runSplit f' sched

/-! ## Derived notions used to state the properties -/

/-- The first status `Execute` sends (line 24). -/
def startPendingStatus : Status := ⟨.StartPending, Accepted.zero, 0, 0⟩

/-- The second status `Execute` sends (line 30), with all four accepted bits written out. -/
def runningStatus : Status := ⟨.Running, ⟨true, true, true, true⟩, 0, 0⟩

/-- The statuses sent so far, without the ghost tag. -/
def statuses (s : Sys) : List Status := s.changes.map Emission.status

/-- The relation of one step, one constructor per statement-level piece of the source. -/
inductive Step : Sys → Action → Sys → Prop
  | entry (s : Sys) : s.closes < 2 → s.pc = .entry →
      Step s .resume
        { send s .main ⟨.StartPending, Accepted.zero, 0, 0⟩ with
          tick := .fasttick, checkpoint := 1, pc := .starting }
  | starting (s : Sys) : s.closes < 2 → s.pc = .starting →
      Step s .resume { send s .main ⟨.Running, cmdsAccepted, 0, 0⟩ with pc := .select }
  | shutdown (s : Sys) : s.closes < 2 → s.pc = .select → 0 < s.closes →
      Step s .shutdown { s with pc := .afterLoop }
  | tick (s : Sys) : s.closes < 2 → s.pc = .select → Step s .tick (beep s)
  | request (s : Sys) (c : ChangeRequest) : s.closes < 2 → s.pc = .select →
      Step s (.request c) (onRequest s c)
  | echo (s : Sys) (st : Status) : s.closes < 2 → s.pc = .interrogating st →
      Step s .resume { send s .echo st with pc := .select }
  | final (s : Sys) : s.closes < 2 → s.pc = .afterLoop →
      Step s .resume
        { send s .main ⟨.StopPending, Accepted.zero, s.checkpoint, 0⟩ with pc := .returned }
  | drainLaunched (s : Sys) (i : Nat) : s.closes < 2 → s.drains[i]? = some .launched →
      Step s (.drain i)
        { logTo s ⟨.info, 1, .preshutdown⟩ with drains := s.drains.set i .sending }
  | drainSend (s : Sys) (i : Nat) : s.closes < 2 → s.drains[i]? = some .sending →
      Step s (.drain i)
        { send s (.drain i) ⟨.StopPending, Accepted.zero, s.checkpoint, 3000⟩ with
          drains := s.drains.set i .sleeping }
  | drainLast (s : Sys) (i : Nat) : s.closes < 2 → s.drains[i]? = some .sleeping →
      (s.checkpoint + 1) % 2 ^ 32 > 30 →
      Step s (.drain i)
        { logTo s ⟨.info, 1, .keepAliveEnd⟩ with
          checkpoint := (s.checkpoint + 1) % 2 ^ 32, drains := s.drains.set i .closing }
  | drainNext (s : Sys) (i : Nat) : s.closes < 2 → s.drains[i]? = some .sleeping →
      ¬ (s.checkpoint + 1) % 2 ^ 32 > 30 →
      Step s (.drain i)
        { logTo s ⟨.info, 1, .preshutdownTick⟩ with
          checkpoint := (s.checkpoint + 1) % 2 ^ 32, drains := s.drains.set i .sending }
  | drainClose (s : Sys) (i : Nat) : s.closes < 2 → s.drains[i]? = some .closing →
      Step s (.drain i) { s with closes := s.closes + 1, drains := s.drains.set i .ended }

/-- The two statuses of lines 24 and 30, as sent. -/
def opening : List Emission := [⟨.main, startPendingStatus⟩, ⟨.main, runningStatus⟩]

/-- What has been sent, by the position of the main goroutine: nothing at entry, the first
status before line 30, and both opening statuses from the loop on. -/
def OpeningInv (s : Sys) : Prop :=
  (s.pc = .entry → s.changes = [] ∧ s.beeps = 0 ∧ s.drains = []) ∧
  (s.pc = .starting →
    s.changes = [⟨.main, startPendingStatus⟩] ∧ s.beeps = 0 ∧ s.drains = []) ∧
  (s.pc ≠ .entry → s.pc ≠ .starting → ∃ rest, s.changes = opening ++ rest)

/-- The action is the handling of a PreShutdown request. -/
def isPreShutdown : Action → Bool
  | .request c => decide (c.Cmd = .PreShutdown)
  | _ => false

/-- An event that is a tick or a request whose command is none of Stop, Shutdown,
PreShutdown. -/
def benign : Action → Bool
  | .tick => true
  | .request c =>
      decide (c.Cmd ≠ .Stop) && decide (c.Cmd ≠ .Shutdown) && decide (c.Cmd ≠ .PreShutdown)
  | _ => false

/-- The steps in which the main goroutine handles one event taken at the select: the
select case itself and, for an Interrogate, the second send after the sleep. -/
def handling : Action → List Action
  | .request c => if c.Cmd = .Interrogate then [.request c, .resume] else [.request c]
  | a => [a]

/-- The schedule in which the main goroutine alone handles the events one after the
other. -/
def handlingAll : List Action → List Action
  | [] => []
  | a :: evs => handling a ++ handlingAll evs

/-- The loop is running and nothing has been started towards its end: the main goroutine
is at the select, no drain is launched, the completion signal is open, the counter is 1,
and none of the main goroutine's own statuses is StopPending. -/
def LoopRunning (s : Sys) : Prop :=
  s.pc = .select ∧ s.closes = 0 ∧ s.drains = [] ∧ s.checkpoint = 1 ∧
  ∀ e ∈ s.changes, e.origin = .main → e.status.State ≠ .StopPending

/-- The statuses drain goroutine `i` has sent, oldest first. -/
def drainStatuses (i : Nat) (s : Sys) : List Status :=
  (s.changes.filter (fun e => decide (e.origin = .drain i))).map Emission.status

/-- The status literal of line 65 with checkpoint `k`. -/
def drainStatus (k : Nat) : Status := ⟨.StopPending, Accepted.zero, k, 3000⟩

/-- Number of steps a drain that started at counter 1 and runs alone has taken when it
stands at `d` with the counter at `cp`. -/
def drainPhase (d : DrainPc) (cp : Nat) : Nat :=
  match d with
  | .launched => 0
  | .sending => 2 * cp - 1
  | .sleeping => 2 * cp
  | .closing => 61
  | .ended => 62

/-- Number of statuses such a drain has sent. -/
def drainSent (d : DrainPc) (cp : Nat) : Nat :=
  match d with
  | .launched => 0
  | .sending => cp - 1
  | .sleeping => cp
  | .closing => 30
  | .ended => 30

/-- Range of the counter at each position of such a drain. -/
def drainCounterOk (d : DrainPc) (cp : Nat) : Prop :=
  match d with
  | .launched => cp = 1
  | .sending => 1 ≤ cp ∧ cp ≤ 30
  | .sleeping => 1 ≤ cp ∧ cp ≤ 30
  | .closing => cp = 31
  | .ended => cp = 31

/-- State of a run with one drain, launched at counter 1, after `n` steps of the drain,
while the main goroutine stays at the select. -/
def SoloDrain (s : Sys) (n : Nat) : Prop :=
  s.pc = .select ∧
  ∃ d, s.drains = [d] ∧
    drainStatuses 0 s = (List.range' 1 (drainSent d s.checkpoint)).map drainStatus ∧
    n = drainPhase d s.checkpoint ∧
    s.closes = (if d = .ended then 1 else 0) ∧
    drainCounterOk d s.checkpoint

/-- Checkpoints of all StopPending statuses sent, oldest first. -/
def stopPendingCheckpoints (s : Sys) : List Nat :=
  ((statuses s).filter (fun st => decide (st.State = .StopPending))).map Status.CheckPoint

/-- What a step can add to the statuses sent: nothing, an echo, a status of the main
goroutine that is not StopPending, the final status with the current counter, or a drain's
status with the current counter. -/
inductive Sends (s : Sys) : Sys → Prop
  | nothing (s' : Sys) : s'.changes = s.changes → Sends s s'
  | echo (s' : Sys) (st : Status) : s'.changes = s.changes ++ [⟨.echo, st⟩] → Sends s s'
  | plain (s' : Sys) (st : Status) : st.State ≠ .StopPending →
      s'.changes = s.changes ++ [⟨.main, st⟩] → Sends s s'
  | final (s' : Sys) :
      s'.changes = s.changes ++ [⟨.main, ⟨.StopPending, Accepted.zero, s.checkpoint, 0⟩⟩] →
      Sends s s'
  | drain (s' : Sys) (i : Nat) : s.drains[i]? = some .sending →
      s'.changes = s.changes ++ [⟨.drain i, drainStatus s.checkpoint⟩] → Sends s s'

/-- The Pause and Continue commands among the requests of a schedule, in order. -/
def toggles (sched : List Action) : List Cmd :=
  sched.filterMap (fun a =>
    match a with
    | .request c => if c.Cmd = .Pause ∨ c.Cmd = .Continue then some c.Cmd else none
    | _ => none)

/-- Before `Execute` returns the main goroutine has sent no StopPending status of its
own, and while no drain is launched the counter still has its initial value 1. -/
def BeforeReturnInv (s : Sys) : Prop :=
  (s.pc ≠ .returned → ∀ e ∈ s.changes, e.origin = .main → e.status.State ≠ .StopPending) ∧
  (s.pc ≠ .entry → s.drains = [] → s.checkpoint = 1)

/-- The status literal of line 76. -/
def pausedStatus : Status := ⟨.Paused, ⟨true, true, true, true⟩, 0, 0⟩

/-- The pause between two sends of a drain, in milliseconds (line 66,
`time.Sleep(1 * time.Second)`). -/
def drainPause : Nat := 1 * 1000

/-- Every status a drain has sent is the literal of line 65: StopPending, no accepted bit,
wait hint 3000. -/
def DrainForm (s : Sys) : Prop :=
  ∀ e ∈ s.changes, ∀ i, e.origin = .drain i →
    e.status = drainStatus e.status.CheckPoint ∧ i < s.drains.length

/-- Before the return every status built by the main goroutine's own statements carries
checkpoint 0. -/
def MainZero (s : Sys) : Prop :=
  s.pc ≠ .returned → ∀ e ∈ s.changes, e.origin = .main → e.status.CheckPoint = 0

/-- State of a run in which at most one drain is launched: either none, with the signal
open, nothing sent by a drain and the counter at 1 from line 29 on; or one, with the
statuses it has sent, the signal and the counter as its position tells. -/
def OneDrain (s : Sys) : Prop :=
  (s.pc = .entry → s.drains = []) ∧
  ((s.drains = [] ∧ s.closes = 0 ∧ drainStatuses 0 s = [] ∧
      (s.pc ≠ .entry → s.checkpoint = 1)) ∨
   (∃ d, s.drains = [d] ∧
      drainStatuses 0 s = (List.range' 1 (drainSent d s.checkpoint)).map drainStatus ∧
      s.closes = (if d = .ended then 1 else 0) ∧
      drainCounterOk d s.checkpoint))

/-- The request is a Stop or a Shutdown. -/
def isStop : Action → Bool
  | .request c => decide (c.Cmd = .Stop) || decide (c.Cmd = .Shutdown)
  | _ => false

/-- The loop has been left only with the completion signal closed. -/
def ExitBySignal (s : Sys) : Prop :=
  (s.pc = .afterLoop ∨ s.pc = .returned) → 0 < s.closes

/-- The status of line 65 with checkpoint `k`, as sent by drain goroutine `i`. -/
def drainEmission (i k : Nat) : Emission := ⟨.drain i, drainStatus k⟩

/-! ## General lemmas on steps and runs -/

theorem step_sound {s s' : Sys} {a : Action} (h : step s a = some s') : Step s a s' := by
  unfold step at h
  split at h
  · simp at h
  · rename_i hc
    have hc' : s.closes < 2 := by omega
    cases a with
    | drain i =>
        simp only [drainStep] at h
        split at h
        · simp at h
        · rename_i hd; cases h; exact Step.drainLaunched s i hc' hd
        · rename_i hd; cases h; exact Step.drainSend s i hc' hd
        · rename_i hd
          split at h
          · rename_i hcp; cases h; exact Step.drainLast s i hc' hd hcp
          · rename_i hcp; cases h; exact Step.drainNext s i hc' hd hcp
        · rename_i hd; cases h; exact Step.drainClose s i hc' hd
        · simp at h
    | tick =>
        cases hpc : s.pc <;> simp [mainStep, hpc] at h
        subst h; exact Step.tick s hc' hpc
    | request c =>
        cases hpc : s.pc <;> simp [mainStep, hpc] at h
        subst h; exact Step.request s c hc' hpc
    | shutdown =>
        cases hpc : s.pc <;> simp [mainStep, hpc] at h
        obtain ⟨h0, h⟩ := h
        subst h; exact Step.shutdown s hc' hpc h0
    | resume =>
        cases hpc : s.pc <;> simp [mainStep, hpc] at h
        · subst h; exact Step.entry s hc' hpc
        · subst h; exact Step.starting s hc' hpc
        · subst h; exact Step.echo s _ hc' hpc
        · subst h; exact Step.final s hc' hpc

theorem run_cons_some {s s' : Sys} {a : Action} {sched : List Action}
    (h : run s (a :: sched) = some s') : ∃ s1, step s a = some s1 ∧ run s1 sched = some s' := by
  simp only [run] at h
  split at h
  · simp at h
  · rename_i s1 h1; exact ⟨s1, h1, h⟩

theorem run_append (s : Sys) (p q : List Action) :
    run s (p ++ q) = (run s p).bind (fun s1 => run s1 q) := by
  induction p generalizing s with
  | nil => simp [run]
  | cons a p ih =>
      simp only [List.cons_append, run]
      cases step s a with
      | none => simp
      | some s1 => simpa using ih s1

/-- A property that holds at the start and is kept by every step holds after every run. -/
theorem run_invariant (P : Sys → Prop)
    (hstep : ∀ s a s', P s → Step s a s' → P s') :
    ∀ (sched : List Action) (s s' : Sys), P s → run s sched = some s' → P s' := by
  intro sched
  induction sched with
  | nil => intro s s' hP h; simp [run] at h; subst h; exact hP
  | cons a sched ih =>
      intro s s' hP h
      obtain ⟨s1, h1, h2⟩ := run_cons_some h
      exact ih s1 s' (hstep s a s1 hP (step_sound h1)) h2

theorem opening_snoc {l : List Emission} (x : Emission) (h : ∃ rest, l = opening ++ rest) :
    ∃ rest, l ++ [x] = opening ++ rest := by
  obtain ⟨rest, h⟩ := h
  exact ⟨rest ++ [x], by simp [h]⟩

theorem cmdsAccepted_eq : cmdsAccepted = ⟨true, true, true, true⟩ := by decide

theorem openingInv_step (s : Sys) (a : Action) (s' : Sys) (hP : OpeningInv s)
    (h : Step s a s') : OpeningInv s' := by
  obtain ⟨h1, h2, h3⟩ := hP
  cases h with
  | entry _ hpc =>
      have := h1 hpc
      simp_all [OpeningInv, send, startPendingStatus]
  | starting _ hpc =>
      have := h2 hpc
      simp_all [OpeningInv, send]
      exact ⟨[], by simp [opening, runningStatus, startPendingStatus, cmdsAccepted_eq]⟩
  | shutdown _ hpc _ =>
      have := h3 (by simp [hpc]) (by simp [hpc])
      simp_all [OpeningInv]
  | tick _ hpc =>
      have := h3 (by simp [hpc]) (by simp [hpc])
      simp_all [OpeningInv, beep]
  | request c _ hpc =>
      have := h3 (by simp [hpc]) (by simp [hpc])
      obtain ⟨cmd, st⟩ := c
      cases cmd <;> simp [OpeningInv, onRequest, send, logTo, hpc] <;>
        first | exact this | exact opening_snoc _ this
  | echo st _ hpc =>
      have := h3 (by simp [hpc]) (by simp [hpc])
      simp [OpeningInv, send]; exact opening_snoc _ this
  | final _ hpc =>
      have := h3 (by simp [hpc]) (by simp [hpc])
      simp [OpeningInv, send]; exact opening_snoc _ this
  | drainLaunched i _ hd =>
      refine ⟨fun h => ?_, fun h => ?_, fun ha hb => ?_⟩
      · have := h1 h; simp_all
      · have := h2 h; simp_all
      · exact h3 ha hb
  | drainSend i _ hd =>
      refine ⟨fun h => ?_, fun h => ?_, fun ha hb => ?_⟩
      · have := h1 h; simp_all
      · have := h2 h; simp_all
      · exact opening_snoc _ (h3 ha hb)
  | drainLast i _ hd _ =>
      refine ⟨fun h => ?_, fun h => ?_, fun ha hb => ?_⟩
      · have := h1 h; simp_all
      · have := h2 h; simp_all
      · exact h3 ha hb
  | drainNext i _ hd _ =>
      refine ⟨fun h => ?_, fun h => ?_, fun ha hb => ?_⟩
      · have := h1 h; simp_all
      · have := h2 h; simp_all
      · exact h3 ha hb
  | drainClose i _ hd =>
      refine ⟨fun h => ?_, fun h => ?_, fun ha hb => ?_⟩
      · have := h1 h; simp_all
      · have := h2 h; simp_all
      · exact h3 ha hb

theorem openingInv_run (args : List String) (sched : List Action) (s : Sys)
    (h : run (Execute args) sched = some s) : OpeningInv s :=
  run_invariant OpeningInv openingInv_step sched (Execute args) s
    (by simp [OpeningInv, Execute]) h

/-! ## The opening statuses -/

/-- C1: in every run of Execute the first two statuses sent are StartPending with every
other field zero, then Running with exactly the four accepted bits and every other field
zero (the statuses sent so far always agree with these two on their first two places);
both are already sent in every state in which a tick or a control request is handled; and
the two opening steps are always possible and lead to the select. -/
theorem execute_opening_statuses (args : List String) (sched : List Action) (s : Sys)
    (h : run (Execute args) sched = some s) :
    List.take 2 (statuses s)
        = List.take (statuses s).length [startPendingStatus, runningStatus] ∧
    (∀ a s', (a = Action.tick ∨ ∃ c, a = Action.request c) → step s a = some s' →
        List.take 2 (statuses s) = [startPendingStatus, runningStatus]) ∧
    (∃ s0, run (Execute args) [Action.resume, Action.resume] = some s0 ∧
        statuses s0 = [startPendingStatus, runningStatus] ∧ s0.pc = MainPc.select ∧
        s0.beeps = 0 ∧ s0.elog = []) ∧
    startPendingStatus = ⟨State.StartPending, Accepted.zero, 0, 0⟩ ∧
    runningStatus = ⟨State.Running, cmdsAccepted, 0, 0⟩ ∧
    cmdsAccepted = ⟨true, true, true, true⟩ := by
  have hI := openingInv_run args sched s h
  obtain ⟨h1, h2, h3⟩ := hI
  have key : s.pc ≠ .entry → s.pc ≠ .starting →
      List.take 2 (statuses s) = [startPendingStatus, runningStatus] := by
    intro ha hb
    obtain ⟨rest, hr⟩ := h3 ha hb
    simp [statuses, hr, opening]
  refine ⟨?_, ?_, ?_, rfl, by simp [runningStatus, cmdsAccepted_eq], cmdsAccepted_eq⟩
  · by_cases ha : s.pc = .entry
    · simp [statuses, (h1 ha).1]
    · by_cases hb : s.pc = .starting
      · simp [statuses, (h2 hb).1]
      · obtain ⟨rest, hr⟩ := h3 ha hb
        simp [statuses, hr, opening]
  · intro a s' ha hs
    have hst := step_sound hs
    rcases ha with rfl | ⟨c, rfl⟩
    · cases hst with
      | tick _ hpc => exact key (by simp [hpc]) (by simp [hpc])
    · cases hst with
      | request _ _ hpc => exact key (by simp [hpc]) (by simp [hpc])
  · refine ⟨_, rfl, ?_⟩
    simp [statuses, send, startPendingStatus, runningStatus, cmdsAccepted_eq, Execute]

/-- Witness of `execute_opening_statuses`: the run that opens and then handles a tick. -/
theorem execute_opening_statuses_witness :
    ∃ s, run (Execute []) [Action.resume, Action.resume, Action.tick] = some s ∧
      List.take 2 (statuses s)
        = List.take (statuses s).length [startPendingStatus, runningStatus] :=
  ⟨_, rfl, (execute_opening_statuses [] [Action.resume, Action.resume, Action.tick] _ rfl).1⟩

/-! ## Lists of drains and the position of the main goroutine -/

theorem getElem?_set_of_some {α : Type} (l : List α) (i j : Nat) (x d : α)
    (h : l[j]? = some d) : (l.set i x)[j]? = some (if i = j then x else d) := by
  have hj : j < l.length := by
    rcases Nat.lt_or_ge j l.length with h' | h'
    · exact h'
    · rw [List.getElem?_eq_none h'] at h; cases h
  rw [List.getElem?_set]
  by_cases hij : i = j
  · subst hij; simp [hj]
  · simp [hij, h]

theorem step_drain_pc {s s' : Sys} {i : Nat} (h : Step s (.drain i) s') : s'.pc = s.pc := by
  cases h <;> rfl

theorem run_drains_pc : ∀ (mid : List Action) (s s' : Sys),
    (∀ a ∈ mid, ∃ i, a = Action.drain i) → run s mid = some s' → s'.pc = s.pc := by
  intro mid
  induction mid with
  | nil => intro s s' _ h; simp [run] at h; subst h; rfl
  | cons a mid ih =>
      intro s s' hmid h
      obtain ⟨s1, h1, h2⟩ := run_cons_some h
      obtain ⟨i, rfl⟩ := hmid a (by simp)
      rw [ih s1 s' (fun b hb => hmid b (by simp [hb])) h2, step_drain_pc (step_sound h1)]

/-! ## Stop and Shutdown -/

/-- The two pieces of line 86, taken back to back, are the one step of `step`. -/
theorem runSplit_back_to_back (s : Sys) (hpc : s.pc = MainPc.afterLoop) :
    runSplit ⟨s, none⟩ [Action.resume, Action.resume]
      = (step s Action.resume).map (fun s' => (⟨s', none⟩ : SplitSys)) := by
  by_cases hc : 2 ≤ s.closes
  · simp [runSplit, stepSplit, hpc, hc, step]
  · simp [runSplit, stepSplit, hpc, hc, step, mainStep]

/-- A step that is not the main goroutine's step after the loop is the step of `step`. -/
theorem stepSplit_lift (s : Sys) (a : Action)
    (h : s.pc ≠ MainPc.afterLoop ∨ a ≠ Action.resume) :
    stepSplit ⟨s, none⟩ a = (step s a).map (fun s' => (⟨s', none⟩ : SplitSys)) := by
  have hgen : (match step s a with
      | none => none
      | some s' => some (⟨s', none⟩ : SplitSys))
      = (step s a).map (fun s' => (⟨s', none⟩ : SplitSys)) := by
    cases step s a <;> rfl
  rcases h with h | h
  · cases hpc : s.pc <;> first
      | exact absurd hpc h
      | (simp only [stepSplit, hpc]; exact hgen)
  · cases a <;> first
      | exact absurd rfl h
      | (cases hpc : s.pc <;> simp only [stepSplit, hpc] <;> exact hgen)

/-- C2: the code at an input where the final status carries a checkpoint below that of a
status sent before it.  A PreShutdown, then a Stop while the drain is in the sleep after
its first send: the loop is left, line 86 evaluates its operand with the counter at 1,
the drain wakes, increments the counter to 2 and sends checkpoint 2, and then the final
status is communicated with checkpoint 1. -/
theorem final_status_below_drain_status :
    ∃ f, runSplit ⟨Execute [], none⟩
        [Action.resume, Action.resume, Action.request ⟨Cmd.PreShutdown, runningStatus⟩,
         Action.drain 0, Action.drain 0,
         Action.request ⟨Cmd.Stop, drainStatus 1⟩, Action.resume,
         Action.drain 0, Action.drain 0, Action.resume] = some f ∧
      f.operand = none ∧ f.sys.pc = MainPc.returned ∧
      statuses f.sys = [startPendingStatus, runningStatus, drainStatus 1, drainStatus 2,
        ⟨State.StopPending, Accepted.zero, 1, 0⟩] ∧
      (⟨State.StopPending, Accepted.zero, 1, 0⟩ : Status).CheckPoint
        < (drainStatus 2).CheckPoint :=
  ⟨_, rfl, rfl, rfl, by decide, by decide⟩

/-! ## Launching drains and closing `shutdown` -/

theorem count_set_same {α : Type} [DecidableEq α] (y : α) :
    ∀ (l : List α) (i : Nat) (old new : α), l[i]? = some old → old ≠ y → new ≠ y →
      (l.set i new).count y = l.count y := by
  intro l
  induction l with
  | nil => intro i old new h; simp at h
  | cons x l ih =>
      intro i old new h ho hn
      cases i with
      | zero =>
          simp at h; subst h
          simp [List.count_cons, ho, hn]
      | succ i =>
          simp at h
          simp [List.count_cons, ih i old new h ho hn]

theorem count_set_new {α : Type} [DecidableEq α] (y : α) :
    ∀ (l : List α) (i : Nat) (old : α), l[i]? = some old → old ≠ y →
      (l.set i y).count y = l.count y + 1 := by
  intro l
  induction l with
  | nil => intro i old h; simp at h
  | cons x l ih =>
      intro i old h ho
      cases i with
      | zero =>
          simp at h; subst h
          simp [List.count_cons, ho]
      | succ i =>
          simp at h
          simp [List.count_cons, ih i old h ho]; omega

/-- The closes executed are the closes of the drains that have ended. -/
theorem closes_step (s : Sys) (a : Action) (s' : Sys)
    (hP : s.closes = s.drains.count DrainPc.ended) (h : Step s a s') :
    s'.closes = s'.drains.count DrainPc.ended := by
  cases h with
  | request c _ _ =>
      obtain ⟨cmd, st⟩ := c
      cases cmd <;> simp [onRequest, send, logTo, hP]
  | drainLaunched i _ hd =>
      simp [logTo, hP, count_set_same _ _ _ _ _ hd]
  | drainSend i _ hd =>
      simp [send, hP, count_set_same _ _ _ _ _ hd]
  | drainLast i _ hd _ =>
      simp [logTo, hP, count_set_same _ _ _ _ _ hd]
  | drainNext i _ hd _ =>
      simp [logTo, hP, count_set_same _ _ _ _ _ hd]
  | drainClose i _ hd =>
      simp [hP, count_set_new _ _ _ _ hd]
  | _ => simp [send, beep, hP]

theorem step_drains_length {s s' : Sys} {a : Action} (h : Step s a s') :
    s'.drains.length = s.drains.length + (if isPreShutdown a then 1 else 0) := by
  cases h with
  | request c _ _ =>
      obtain ⟨cmd, st⟩ := c
      cases cmd <;> simp [onRequest, send, logTo, isPreShutdown]
  | _ => simp [send, logTo, beep, isPreShutdown]

theorem run_drains_length : ∀ (sched : List Action) (s s' : Sys), run s sched = some s' →
    s'.drains.length = s.drains.length + sched.countP isPreShutdown := by
  intro sched
  induction sched with
  | nil => intro s s' h; simp [run] at h; subst h; simp
  | cons a sched ih =>
      intro s s' h
      obtain ⟨s1, h1, h2⟩ := run_cons_some h
      rw [ih s1 s' h2, step_drains_length (step_sound h1), List.countP_cons]
      omega

/-- C3, counterexample: two PreShutdown requests launch two drains; when both have run to
their end, `close(shutdown)` has been executed twice and the process has panicked: no
action is possible any more. -/
theorem second_preshutdown_launches_second_drain :
    ∃ s, run (Execute [])
        ([Action.resume, Action.resume,
          Action.request ⟨Cmd.PreShutdown, runningStatus⟩,
          Action.request ⟨Cmd.PreShutdown, runningStatus⟩]
          ++ List.replicate 62 (Action.drain 0) ++ List.replicate 4 (Action.drain 1))
        = some s ∧
      s.drains = [DrainPc.ended, DrainPc.ended] ∧ s.closes = 2 ∧
      ∀ a, step s a = none :=
  ⟨_, rfl, rfl, rfl, fun _ => rfl⟩

/-- C3, amended: every PreShutdown request handled launches a drain, whether or not one is
running: after every run the number of drains launched is the number of PreShutdown
requests in it, and the number of closes of the completion signal is the number of drains
that have ended.  So in a run with at most one PreShutdown request at most one drain is
launched and the signal is closed at most once (no panic). -/
theorem drains_launched_eq_preshutdowns (args : List String) (sched : List Action) (s : Sys)
    (h : run (Execute args) sched = some s) :
    s.drains.length = sched.countP isPreShutdown ∧
    s.closes = s.drains.count DrainPc.ended ∧
    (sched.countP isPreShutdown ≤ 1 → s.drains.length ≤ 1 ∧ s.closes ≤ 1) := by
  have hlen := run_drains_length sched (Execute args) s h
  have hcl := run_invariant (fun s => s.closes = s.drains.count DrainPc.ended) closes_step
    sched (Execute args) s (by simp [Execute]) h
  simp only [Execute, List.length_nil, Nat.zero_add] at hlen
  refine ⟨hlen, hcl, fun h1 => ⟨by omega, ?_⟩⟩
  have := List.count_le_length DrainPc.ended s.drains
  omega

/-- Witness of `drains_launched_eq_preshutdowns`: one PreShutdown and its drain run to the
end. -/
theorem drains_launched_eq_preshutdowns_witness :
    ∃ s, run (Execute [])
        ([Action.resume, Action.resume, Action.request ⟨Cmd.PreShutdown, runningStatus⟩]
          ++ List.replicate 62 (Action.drain 0)) = some s ∧
      s.drains.length = 1 ∧ s.closes = 1 :=
  ⟨_, rfl,
    by
      have h := drains_launched_eq_preshutdowns []
        ([Action.resume, Action.resume, Action.request ⟨Cmd.PreShutdown, runningStatus⟩]
          ++ List.replicate 62 (Action.drain 0)) _ rfl
      exact ⟨h.1.trans (by decide), h.2.1.trans (by decide)⟩⟩

/-! ## Events that do not end the loop -/

theorem benign_handled (s : Sys) (a : Action) (hQ : LoopRunning s) (ha : benign a = true) :
    ∃ s1, run s (handling a) = some s1 ∧ LoopRunning s1 := by
  obtain ⟨hpc, hcl, hdr, hcp, hst⟩ := hQ
  cases a with
  | tick =>
      refine ⟨beep s, by simp [handling, run, step, mainStep, hpc, hcl], ?_⟩
      exact ⟨hpc, hcl, hdr, hcp, hst⟩
  | request c =>
      obtain ⟨cmd, st⟩ := c
      cases cmd with
      | Stop => simp [benign] at ha
      | Shutdown => simp [benign] at ha
      | PreShutdown => simp [benign] at ha
      | Interrogate =>
          refine ⟨{ send (send s .echo st) .echo st with pc := .select },
            by simp [handling, run, step, mainStep, hpc, hcl, onRequest, send], ?_⟩
          refine ⟨rfl, hcl, hdr, hcp, ?_⟩
          intro e he ho
          simp [send] at he
          rcases he with he | rfl
          · exact hst e he ho
          · simp at ho
      | Pause =>
          refine ⟨_, by simp [handling, run, step, mainStep, hpc, hcl, onRequest]; rfl, ?_⟩
          refine ⟨hpc, hcl, hdr, hcp, ?_⟩
          intro e he ho
          simp [send] at he
          rcases he with he | rfl
          · exact hst e he ho
          · simp
      | Continue =>
          refine ⟨_, by simp [handling, run, step, mainStep, hpc, hcl, onRequest]; rfl, ?_⟩
          refine ⟨hpc, hcl, hdr, hcp, ?_⟩
          intro e he ho
          simp [send] at he
          rcases he with he | rfl
          · exact hst e he ho
          · simp
      | unknown n =>
          refine ⟨_, by simp [handling, run, step, mainStep, hpc, hcl, onRequest]; rfl, ?_⟩
          exact ⟨hpc, hcl, hdr, hcp, hst⟩
  | shutdown => simp [benign] at ha
  | resume => simp [benign] at ha
  | drain i => simp [benign] at ha

theorem benign_all_handled : ∀ (evs : List Action) (s : Sys), LoopRunning s →
    (∀ a ∈ evs, benign a = true) →
    ∃ s', run s (handlingAll evs) = some s' ∧ LoopRunning s' := by
  intro evs
  induction evs with
  | nil => intro s hQ _; exact ⟨s, rfl, hQ⟩
  | cons a evs ih =>
      intro s hQ hb
      obtain ⟨s1, h1, hQ1⟩ := benign_handled s a hQ (hb a (by simp))
      obtain ⟨s', h2, hQ'⟩ := ih s1 hQ1 (fun b hb' => hb b (by simp [hb']))
      exact ⟨s', by simp [handlingAll, run_append, h1, h2], hQ'⟩

/-- C4: for every finite sequence of ticks and of requests whose command is none of Stop,
Shutdown, PreShutdown, Execute opens and handles the whole sequence, and afterwards the
main goroutine is back at the select: the loop is not left, Execute has not returned, and
none of the statuses the main goroutine built itself is StopPending. -/
theorem benign_events_never_terminate (args : List String) (evs : List Action)
    (hb : ∀ a ∈ evs, benign a = true) :
    ∃ s, run (Execute args) (Action.resume :: Action.resume :: handlingAll evs) = some s ∧
      s.pc = MainPc.select ∧ s.pc ≠ MainPc.afterLoop ∧ s.pc ≠ MainPc.returned ∧
      (∀ e ∈ s.changes, e.origin = Origin.main → e.status.State ≠ State.StopPending) ∧
      s.drains = [] ∧ s.closes = 0 := by
  have h0 : LoopRunning
      { send (send (Execute args) .main ⟨.StartPending, Accepted.zero, 0, 0⟩) .main
          ⟨.Running, cmdsAccepted, 0, 0⟩ with
        tick := .fasttick, checkpoint := 1, pc := .select } := by
    refine ⟨rfl, rfl, rfl, rfl, ?_⟩
    intro e he _
    simp [send, Execute] at he
    rcases he with rfl | rfl <;> simp
  obtain ⟨s, hrun, hpc, hcl, hdr, _, hst⟩ := benign_all_handled evs _ h0 hb
  refine ⟨s, ?_, hpc, by simp [hpc], by simp [hpc], hst, hdr, hcl⟩
  simpa [run, step, mainStep, Execute, send] using hrun

/-- Witness of `benign_events_never_terminate`: a tick, an Interrogate, a Pause, an unknown
code and a Continue. -/
theorem benign_events_never_terminate_witness :
    ∃ s, run (Execute [])
        (Action.resume :: Action.resume :: handlingAll
          [Action.tick, Action.request ⟨Cmd.Interrogate, runningStatus⟩,
           Action.request ⟨Cmd.Pause, runningStatus⟩,
           Action.request ⟨Cmd.unknown 99, runningStatus⟩,
           Action.request ⟨Cmd.Continue, runningStatus⟩]) = some s ∧
      s.pc = MainPc.select ∧ s.pc ≠ MainPc.afterLoop ∧ s.pc ≠ MainPc.returned ∧
      (∀ e ∈ s.changes, e.origin = Origin.main → e.status.State ≠ State.StopPending) ∧
      s.drains = [] ∧ s.closes = 0 :=
  benign_events_never_terminate [] _ (by decide)

/-! ## One drain next to the ticking loop -/

theorem soloDrain_tick {s s' : Sys} {n : Nat} (hD : SoloDrain s n)
    (h : Step s Action.tick s') : SoloDrain s' n := by
  cases h with
  | tick _ _ => exact hD

theorem soloDrain_drain {s s' : Sys} {n : Nat} (hD : SoloDrain s n)
    (h : Step s (Action.drain 0) s') : SoloDrain s' (n + 1) := by
  obtain ⟨hpc, d, hdr, hst, hn, hcl, hok⟩ := hD
  cases h with
  | drainLaunched _ _ hd =>
      simp [hdr] at hd; subst hd
      simp only [drainCounterOk] at hok
      refine ⟨hpc, .sending, by simp [logTo, hdr], ?_, ?_, ?_, ?_⟩
      · simpa [logTo, drainStatuses, drainSent, hok] using hst
      · simp [logTo, drainPhase, hok, hn]
      · simpa [logTo] using hcl
      · simp [logTo, drainCounterOk, hok]
  | drainSend _ _ hd =>
      simp [hdr] at hd; subst hd
      simp only [drainCounterOk] at hok
      refine ⟨hpc, .sleeping, by simp [send, hdr], ?_, ?_, ?_, ?_⟩
      · have hcp : s.checkpoint = (s.checkpoint - 1) + 1 := by omega
        simp only [drainStatuses, send, drainSent] at hst ⊢
        rw [List.filter_append, List.map_append, hst]
        conv_rhs => rw [hcp, List.range'_1_concat]
        simp [drainStatus]
        omega
      · simp only [send, drainPhase] at hn ⊢; omega
      · simpa [send] using hcl
      · simpa [send, drainCounterOk] using hok
  | drainLast _ _ hd hgt =>
      simp [hdr] at hd; subst hd
      simp only [drainCounterOk] at hok
      have hmod : (s.checkpoint + 1) % 2 ^ 32 = s.checkpoint + 1 :=
        Nat.mod_eq_of_lt (by omega)
      rw [hmod] at hgt
      have hcp : s.checkpoint = 30 := by omega
      refine ⟨hpc, .closing, by simp [logTo, hdr], ?_, ?_, ?_, ?_⟩
      · simpa [logTo, drainStatuses, drainSent, hcp] using hst
      · simp only [logTo, drainPhase] at hn ⊢; omega
      · simpa [logTo] using hcl
      · simp [logTo, drainCounterOk, hmod, hcp]
  | drainNext _ _ hd hle =>
      simp [hdr] at hd; subst hd
      simp only [drainCounterOk] at hok
      have hmod : (s.checkpoint + 1) % 2 ^ 32 = s.checkpoint + 1 :=
        Nat.mod_eq_of_lt (by omega)
      rw [hmod] at hle
      refine ⟨hpc, .sending, by simp [logTo, hdr], ?_, ?_, ?_, ?_⟩
      · simp only [logTo, drainStatuses, drainSent, hmod, Nat.add_sub_cancel] at hst ⊢
        exact hst
      · simp only [logTo, drainPhase, hmod] at hn ⊢; omega
      · simpa [logTo] using hcl
      · simp only [logTo, drainCounterOk, hmod]; omega
  | drainClose _ _ hd =>
      simp [hdr] at hd; subst hd
      simp only [drainCounterOk] at hok
      refine ⟨hpc, .ended, by simp [hdr], ?_, ?_, ?_, ?_⟩
      · simpa [drainStatuses, drainSent] using hst
      · simp only [drainPhase] at hn ⊢; omega
      · simp at hcl; simp [hcl]
      · simpa [drainCounterOk] using hok

theorem soloDrain_run : ∀ (sched : List Action) (s s' : Sys) (n : Nat), SoloDrain s n →
    (∀ a ∈ sched, a = Action.tick ∨ a = Action.drain 0) → run s sched = some s' →
    SoloDrain s' (n + sched.count (Action.drain 0)) := by
  intro sched
  induction sched with
  | nil => intro s s' n hD _ h; simp [run] at h; subst h; simpa using hD
  | cons a sched ih =>
      intro s s' n hD hT h
      obtain ⟨s1, h1, h2⟩ := run_cons_some h
      have hs := step_sound h1
      have hT' : ∀ b ∈ sched, b = Action.tick ∨ b = Action.drain 0 :=
        fun b hb => hT b (by simp [hb])
      rcases hT a (by simp) with rfl | rfl
      · have := ih s1 s' n (soloDrain_tick hD hs) hT' h2
        simpa [List.count_cons] using this
      · have := ih s1 s' (n + 1) (soloDrain_drain hD hs) hT' h2
        simpa [List.count_cons, Nat.add_assoc, Nat.add_comm 1] using this

/-! ## Order of the checkpoints sent -/

theorem step_sends {s s' : Sys} {a : Action} (h : Step s a s') : Sends s s' := by
  cases h with
  | entry _ _ => exact Sends.plain _ _ (by simp) rfl
  | starting _ _ => exact Sends.plain _ _ (by simp) rfl
  | shutdown _ _ _ => exact Sends.nothing _ rfl
  | tick _ _ => exact Sends.nothing _ rfl
  | request c _ _ =>
      obtain ⟨cmd, st⟩ := c
      cases cmd with
      | Interrogate => exact Sends.echo _ st rfl
      | Stop => exact Sends.nothing _ rfl
      | Shutdown => exact Sends.nothing _ rfl
      | PreShutdown => exact Sends.nothing _ rfl
      | Pause => exact Sends.plain _ _ (by simp) rfl
      | Continue => exact Sends.plain _ _ (by simp) rfl
      | unknown n => exact Sends.nothing _ rfl
  | echo st _ _ => exact Sends.echo _ st rfl
  | final _ _ => exact Sends.final _ rfl
  | drainLaunched i _ _ => exact Sends.nothing _ rfl
  | drainSend i _ hd => exact Sends.drain _ i hd rfl
  | drainLast i _ _ _ => exact Sends.nothing _ rfl
  | drainNext i _ _ _ => exact Sends.nothing _ rfl
  | drainClose i _ _ => exact Sends.nothing _ rfl

/-- C6: the code at three inputs where a StopPending status does not carry a checkpoint
greater than the one before it, as the claim and the comment of lines 55-59 ("with an
increased checkpoint") ask.  The drain increments the counter only after the sleep that
follows its send, and line 86 sends the counter as it finds it: a Stop handled while the
drain is in the sleep after its first send makes the final status repeat checkpoint 1.  An
Interrogate that carries the drain's last status echoes checkpoint 1 twice more, and two
drains launched by two PreShutdown requests both send checkpoint 1. -/
theorem stop_pending_checkpoints_repeat :
    (∃ s, run (Execute [])
        [Action.resume, Action.resume, Action.request ⟨Cmd.PreShutdown, runningStatus⟩,
         Action.drain 0, Action.drain 0,
         Action.request ⟨Cmd.Stop, drainStatus 1⟩, Action.resume] = some s ∧
      statuses s = [startPendingStatus, runningStatus, drainStatus 1,
        ⟨State.StopPending, Accepted.zero, 1, 0⟩] ∧
      stopPendingCheckpoints s = [1, 1] ∧
      ¬ List.Chain' (fun a b => a < b) (stopPendingCheckpoints s)) ∧
    (∃ s, run (Execute [])
        [Action.resume, Action.resume, Action.request ⟨Cmd.PreShutdown, runningStatus⟩,
         Action.drain 0, Action.drain 0,
         Action.request ⟨Cmd.Interrogate, drainStatus 1⟩, Action.resume] = some s ∧
      stopPendingCheckpoints s = [1, 1, 1]) ∧
    (∃ s, run (Execute [])
        [Action.resume, Action.resume, Action.request ⟨Cmd.PreShutdown, runningStatus⟩,
         Action.request ⟨Cmd.PreShutdown, runningStatus⟩,
         Action.drain 0, Action.drain 0, Action.drain 1, Action.drain 1] = some s ∧
      stopPendingCheckpoints s = [1, 1]) :=
  by
    refine ⟨⟨_, rfl, by decide, ?_, ?_⟩, ⟨_, rfl, by decide⟩, ⟨_, rfl, by decide⟩⟩
    · decide
    · intro hc
      rw [show stopPendingCheckpoints _ = [1, 1] from by decide] at hc
      simp at hc

/-! ## Interrogate -/

/-- C7: in every state in which the main goroutine is at the select (process not
panicked) and for every snapshot, handling an Interrogate that carries it sends exactly two
statuses, both equal to the snapshot, and changes nothing else: the main goroutine is back
at the select with the same cadence, counter, drains, log, beeps and results.  The second
echo is the snapshot also when drains move between the two sends. -/
theorem interrogate_echoes_twice (s : Sys) (st : Status) (hpc : s.pc = MainPc.select)
    (hc : s.closes < 2) :
    run s [Action.request ⟨Cmd.Interrogate, st⟩, Action.resume]
      = some { s with changes := s.changes ++ [⟨Origin.echo, st⟩, ⟨Origin.echo, st⟩] } ∧
    (∀ (mid : List Action) (s1 s2 : Sys),
      step s (Action.request ⟨Cmd.Interrogate, st⟩) = some s1 →
      (∀ a ∈ mid, ∃ i, a = Action.drain i) → run s1 mid = some s2 → s2.closes < 2 →
      s1.changes = s.changes ++ [⟨Origin.echo, st⟩] ∧
      step s2 Action.resume = some { send s2 Origin.echo st with pc := MainPc.select }) := by
  have hn : ¬ 2 ≤ s.closes := by omega
  have h1 : step s (Action.request ⟨Cmd.Interrogate, st⟩)
      = some { send s .echo st with pc := .interrogating st } := by
    simp [step, mainStep, hpc, hn, onRequest]
  refine ⟨?_, ?_⟩
  · simp only [run, h1]
    have h2 : step { send s .echo st with pc := .interrogating st } Action.resume
        = some { send { send s .echo st with pc := .interrogating st } .echo st with
                 pc := .select } := by
      simp [step, mainStep, send, hn]
    simp only [h2]
    simp [send, ← hpc]
  · intro mid s1 s2 hs1 hmid hrun hc2
    rw [h1] at hs1
    cases hs1
    have hpc2 := run_drains_pc mid _ s2 hmid hrun
    have hn2 : ¬ 2 ≤ s2.closes := by omega
    refine ⟨rfl, ?_⟩
    simp only at hpc2
    simp [step, mainStep, hpc2, hn2]

/-- Witness of `interrogate_echoes_twice`: the state in which the loop is entered. -/
theorem interrogate_echoes_twice_witness :
    run ⟨MainPc.select, Ticker.fasttick, 1, 0, [], opening, [], 0, false, 0⟩
        [Action.request ⟨Cmd.Interrogate, runningStatus⟩, Action.resume]
      = some ⟨MainPc.select, Ticker.fasttick, 1, 0, [],
          opening ++ [⟨Origin.echo, runningStatus⟩, ⟨Origin.echo, runningStatus⟩],
          [], 0, false, 0⟩ :=
  (interrogate_echoes_twice ⟨MainPc.select, Ticker.fasttick, 1, 0, [], opening, [], 0, false, 0⟩
    runningStatus rfl (by decide)).1

/-! ## The tick cadence -/

theorem step_tick {s s' : Sys} {a : Action} (h : Step s a s')
    (h0 : s.pc = MainPc.entry → s.tick = Ticker.fasttick) :
    (s'.pc = MainPc.entry → s'.tick = Ticker.fasttick) ∧
    s'.tick = match (toggles [a]).getLast? with
      | some Cmd.Pause => Ticker.slowtick
      | some _ => Ticker.fasttick
      | none => s.tick := by
  cases h with
  | request c _ hpc =>
      obtain ⟨cmd, st⟩ := c
      cases cmd <;> simp [onRequest, send, logTo, toggles, hpc]
  | entry _ hpc => simp [toggles, send, h0 hpc]
  | starting _ hpc => simp [toggles, send]
  | shutdown _ hpc _ => simp [toggles]
  | tick _ hpc => simp [toggles, beep, hpc]
  | echo _ _ hpc => simp [toggles, send]
  | final _ hpc => simp [toggles, send]
  | drainLaunched i _ _ => simpa [toggles, logTo] using h0
  | drainSend i _ _ => simpa [toggles, send] using h0
  | drainLast i _ _ _ => simpa [toggles, logTo] using h0
  | drainNext i _ _ _ => simpa [toggles, logTo] using h0
  | drainClose i _ _ => simpa [toggles] using h0

theorem run_tick : ∀ (sched : List Action) (s s' : Sys),
    (s.pc = MainPc.entry → s.tick = Ticker.fasttick) → run s sched = some s' →
    s'.tick = match (toggles sched).getLast? with
      | some Cmd.Pause => Ticker.slowtick
      | some _ => Ticker.fasttick
      | none => s.tick := by
  intro sched
  induction sched with
  | nil => intro s s' _ h; simp [run] at h; subst h; simp [toggles]
  | cons a sched ih =>
      intro s s' h0 h
      obtain ⟨s1, h1, h2⟩ := run_cons_some h
      obtain ⟨h0', ht⟩ := step_tick (step_sound h1) h0
      have hih := ih s1 s' h0' h2
      have happ : toggles (a :: sched) = toggles [a] ++ toggles sched := by
        simp [toggles, List.filterMap_cons]
        cases a <;> simp
        split <;> simp
      rw [happ, List.getLast?_append, hih]
      cases hl : (toggles sched).getLast? with
      | some c => cases c <;> rfl
      | none => simp [ht]

/-- C8: the cadence is the fast one (500 ms) when Execute is entered and when the loop
starts, and after every run it is the slow one (2 s) exactly when the most recent Pause or
Continue request handled is a Pause, and the fast one otherwise, whatever ticks, other
requests and drain steps are interleaved. -/
theorem cadence_follows_last_toggle (args : List String) (sched : List Action) (s : Sys)
    (h : run (Execute args) sched = some s) :
    (s.tick = Ticker.slowtick ↔ (toggles sched).getLast? = some Cmd.Pause) ∧
    (s.tick = Ticker.fasttick ↔ (toggles sched).getLast? ≠ some Cmd.Pause) ∧
    (Execute args).tick = Ticker.fasttick ∧
    (∃ s0, run (Execute args) [Action.resume, Action.resume] = some s0 ∧
      s0.pc = MainPc.select ∧ s0.tick = Ticker.fasttick) ∧
    Ticker.fasttick.period = 500 ∧ Ticker.slowtick.period = 2000 := by
  have ht := run_tick sched (Execute args) s (fun _ => rfl) h
  refine ⟨?_, ?_, rfl, ⟨_, rfl, rfl, rfl⟩, rfl, rfl⟩
  · rw [ht]
    cases hl : (toggles sched).getLast? with
    | none => simp [Execute]
    | some c => cases c <;> simp
  · rw [ht]
    cases hl : (toggles sched).getLast? with
    | none => simp [Execute]
    | some c => cases c <;> simp

/-- Witness of `cadence_follows_last_toggle`: Pause, a tick, a PreShutdown and a drain
step, then Continue and Pause again. -/
theorem cadence_follows_last_toggle_witness :
    ∃ s, run (Execute [])
        [Action.resume, Action.resume, Action.request ⟨Cmd.Pause, runningStatus⟩,
         Action.tick, Action.request ⟨Cmd.PreShutdown, runningStatus⟩, Action.drain 0,
         Action.request ⟨Cmd.Continue, runningStatus⟩,
         Action.request ⟨Cmd.Pause, runningStatus⟩] = some s ∧
      s.tick = Ticker.slowtick :=
  ⟨_, rfl,
    (cadence_follows_last_toggle []
      [Action.resume, Action.resume, Action.request ⟨Cmd.Pause, runningStatus⟩,
       Action.tick, Action.request ⟨Cmd.PreShutdown, runningStatus⟩, Action.drain 0,
       Action.request ⟨Cmd.Continue, runningStatus⟩,
       Action.request ⟨Cmd.Pause, runningStatus⟩] _ rfl).1.2 (by decide)⟩

/-! ## Unknown command codes -/

/-- C9: in every state in which the main goroutine is at the select (process not
panicked), a request whose command is none of Interrogate, Stop, Shutdown, PreShutdown,
Pause, Continue is handled by writing exactly one log entry, of Error severity with event
id 1 and formatted from the request, and nothing else: no status is sent, no drain is
started, cadence and counter are unchanged and the main goroutine stays at the select. -/
theorem unknown_command_logs_once (s : Sys) (c : ChangeRequest)
    (hpc : s.pc = MainPc.select) (hc : s.closes < 2)
    (h1 : c.Cmd ≠ Cmd.Interrogate) (h2 : c.Cmd ≠ Cmd.Stop) (h3 : c.Cmd ≠ Cmd.Shutdown)
    (h4 : c.Cmd ≠ Cmd.PreShutdown) (h5 : c.Cmd ≠ Cmd.Pause) (h6 : c.Cmd ≠ Cmd.Continue) :
    step s (Action.request c)
      = some { s with elog := s.elog ++ [⟨Severity.error, 1, Msg.unexpected c⟩] } ∧
    ∀ s', step s (Action.request c) = some s' →
      s'.elog = s.elog ++ [⟨Severity.error, 1, Msg.unexpected c⟩] ∧
      s'.changes = s.changes ∧ s'.drains = s.drains ∧ s'.tick = s.tick ∧
      s'.checkpoint = s.checkpoint ∧ s'.pc = MainPc.select ∧ s'.closes = s.closes := by
  have hn : ¬ 2 ≤ s.closes := by omega
  have hs : step s (Action.request c)
      = some { s with elog := s.elog ++ [⟨Severity.error, 1, Msg.unexpected c⟩] } := by
    obtain ⟨cmd, st⟩ := c
    cases cmd with
    | unknown n => simp [step, mainStep, hpc, hn, onRequest, logTo]
    | _ => simp_all
  refine ⟨hs, ?_⟩
  intro s' hs'
  rw [hs] at hs'
  cases hs'
  exact ⟨rfl, rfl, rfl, rfl, rfl, hpc, rfl⟩

/-- Witness of `unknown_command_logs_once`: command code 99 in the state in which the loop
is entered. -/
theorem unknown_command_logs_once_witness :
    step ⟨MainPc.select, Ticker.fasttick, 1, 0, [], opening, [], 0, false, 0⟩
        (Action.request ⟨Cmd.unknown 99, runningStatus⟩)
      = some ⟨MainPc.select, Ticker.fasttick, 1, 0, [], opening,
          [⟨Severity.error, 1, Msg.unexpected ⟨Cmd.unknown 99, runningStatus⟩⟩], 0, false, 0⟩ :=
  (unknown_command_logs_once ⟨MainPc.select, Ticker.fasttick, 1, 0, [], opening, [], 0, false, 0⟩
    ⟨Cmd.unknown 99, runningStatus⟩ rfl (by decide) (by decide) (by decide) (by decide)
    (by decide) (by decide) (by decide)).1

/-! ## The final status -/

theorem set_ne_nil_of_some {l : List DrainPc} {i : Nat} {d x : DrainPc}
    (h : l[i]? = some d) : l.set i x ≠ [] := by
  intro hnil
  have hlen : (l.set i x).length = 0 := by rw [hnil]; rfl
  rw [List.length_set] at hlen
  have : l = [] := List.length_eq_zero.mp hlen
  subst this
  simp at h

theorem mem_snoc_main {l : List Emission} {x : Emission}
    (hl : ∀ e ∈ l, e.origin = Origin.main → e.status.State ≠ State.StopPending)
    (hx : x.origin = Origin.main → x.status.State ≠ State.StopPending) :
    ∀ e ∈ l ++ [x], e.origin = Origin.main → e.status.State ≠ State.StopPending := by
  intro e he
  simp only [List.mem_append, List.mem_singleton] at he
  rcases he with he | rfl
  · exact hl e he
  · exact hx

theorem beforeReturnInv_step (s : Sys) (a : Action) (s' : Sys) (hP : BeforeReturnInv s)
    (h : Step s a s') : BeforeReturnInv s' := by
  obtain ⟨h1, h2⟩ := hP
  cases h with
  | entry _ hpc =>
      exact ⟨fun _ => mem_snoc_main (h1 (by simp [hpc])) (by simp), fun _ _ => rfl⟩
  | starting _ hpc =>
      exact ⟨fun _ => mem_snoc_main (h1 (by simp [hpc])) (by simp),
        fun _ hd => h2 (by simp [hpc]) hd⟩
  | shutdown _ hpc _ =>
      exact ⟨fun _ => h1 (by simp [hpc]), fun _ hd => h2 (by simp [hpc]) hd⟩
  | tick _ hpc =>
      exact ⟨fun _ => h1 (by simp [hpc]), fun _ hd => h2 (by simp [hpc]) hd⟩
  | request c _ hpc =>
      have h1' := h1 (by simp [hpc])
      have h2' := h2 (by simp [hpc])
      obtain ⟨cmd, st⟩ := c
      cases cmd with
      | Interrogate => exact ⟨fun _ => mem_snoc_main h1' (by simp), fun _ hd => h2' hd⟩
      | Stop => exact ⟨fun _ => h1', fun _ hd => h2' hd⟩
      | Shutdown => exact ⟨fun _ => h1', fun _ hd => h2' hd⟩
      | PreShutdown =>
          refine ⟨fun _ => h1', fun _ hd => ?_⟩
          simp [onRequest] at hd
      | Pause => exact ⟨fun _ => mem_snoc_main h1' (by simp), fun _ hd => h2' hd⟩
      | Continue => exact ⟨fun _ => mem_snoc_main h1' (by simp), fun _ hd => h2' hd⟩
      | unknown n => exact ⟨fun _ => h1', fun _ hd => h2' hd⟩
  | echo st _ hpc =>
      exact ⟨fun _ => mem_snoc_main (h1 (by simp [hpc])) (by simp),
        fun _ hd => h2 (by simp [hpc]) hd⟩
  | final _ hpc =>
      exact ⟨fun hne => absurd rfl hne, fun _ hd => h2 (by simp [hpc]) hd⟩
  | drainLaunched i _ hd =>
      exact ⟨fun hne => h1 hne, fun _ hnil => absurd hnil (set_ne_nil_of_some hd)⟩
  | drainSend i _ hd =>
      exact ⟨fun hne => mem_snoc_main (h1 hne) (by simp),
        fun _ hnil => absurd hnil (set_ne_nil_of_some hd)⟩
  | drainLast i _ hd _ =>
      exact ⟨fun hne => h1 hne, fun _ hnil => absurd hnil (set_ne_nil_of_some hd)⟩
  | drainNext i _ hd _ =>
      exact ⟨fun hne => h1 hne, fun _ hnil => absurd hnil (set_ne_nil_of_some hd)⟩
  | drainClose i _ hd =>
      exact ⟨fun hne => h1 hne, fun _ hnil => absurd hnil (set_ne_nil_of_some hd)⟩

theorem beforeReturnInv_run (args : List String) (sched : List Action) (s : Sys)
    (h : run (Execute args) sched = some s) : BeforeReturnInv s :=
  run_invariant BeforeReturnInv beforeReturnInv_step sched (Execute args) s
    ⟨by simp [Execute], by simp [Execute]⟩ h

/-- C10: in every run, once the loop is left (and the process has not panicked) the main
goroutine's next and only step sends one status, StopPending with the current counter as
checkpoint and Accepts and WaitHint zero, and returns; it has sent no StopPending status of
its own before, and after the return it takes no further step.  The loop is left only from
the select, by a Stop, by a Shutdown, or by the closed completion signal.  When the run
has handled no PreShutdown the counter is 1, so the final status is StopPending with
checkpoint 1. -/
theorem final_status_after_loop (args : List String) (sched : List Action) (s : Sys)
    (h : run (Execute args) sched = some s) (hpc : s.pc = MainPc.afterLoop)
    (hc : s.closes < 2) :
    step s Action.resume
      = some { send s Origin.main ⟨State.StopPending, Accepted.zero, s.checkpoint, 0⟩ with
               pc := MainPc.returned } ∧
    (∀ a s', step s a = some s' →
      a = Action.resume ∨ ((∃ i, a = Action.drain i) ∧ s'.pc = MainPc.afterLoop)) ∧
    (∀ e ∈ s.changes, e.origin = Origin.main → e.status.State ≠ State.StopPending) ∧
    (∀ t a t', t.pc = MainPc.returned → step t a = some t' →
      (∃ i, a = Action.drain i) ∧ t'.pc = MainPc.returned) ∧
    (∀ t a t', step t a = some t' → t.pc ≠ MainPc.afterLoop → t'.pc = MainPc.afterLoop →
      t.pc = MainPc.select ∧ t'.changes = t.changes ∧
      ((a = Action.shutdown ∧ 0 < t.closes) ∨
        ∃ c, a = Action.request c ∧ (c.Cmd = Cmd.Stop ∨ c.Cmd = Cmd.Shutdown))) ∧
    (sched.countP isPreShutdown = 0 → s.checkpoint = 1) := by
  have hn : ¬ 2 ≤ s.closes := by omega
  obtain ⟨hB1, hB2⟩ := beforeReturnInv_run args sched s h
  refine ⟨by simp [step, mainStep, hpc, hn], ?_, hB1 (by simp [hpc]), ?_, ?_, ?_⟩
  · intro a s' hs
    have hst := step_sound hs
    cases a with
    | resume => exact Or.inl rfl
    | drain i => exact Or.inr ⟨⟨i, rfl⟩, by rw [step_drain_pc hst, hpc]⟩
    | tick => cases hst with | tick _ hp => rw [hpc] at hp; cases hp
    | shutdown => cases hst with | shutdown _ hp _ => rw [hpc] at hp; cases hp
    | request c => cases hst with | request _ _ hp => rw [hpc] at hp; cases hp
  · intro t a t' ht hs
    have hst := step_sound hs
    cases a with
    | drain i => exact ⟨⟨i, rfl⟩, by rw [step_drain_pc hst, ht]⟩
    | tick => cases hst with | tick _ hp => rw [ht] at hp; cases hp
    | shutdown => cases hst with | shutdown _ hp _ => rw [ht] at hp; cases hp
    | request c => cases hst with | request _ _ hp => rw [ht] at hp; cases hp
    | resume =>
        cases hst with
        | entry _ hp => rw [ht] at hp; cases hp
        | starting _ hp => rw [ht] at hp; cases hp
        | echo _ _ hp => rw [ht] at hp; cases hp
        | final _ hp => rw [ht] at hp; cases hp
  · intro t a t' hs hne ht'
    have hst := step_sound hs
    cases hst with
    | entry _ hp => simp at ht'
    | starting _ hp => simp at ht'
    | shutdown _ hp h0 => exact ⟨hp, rfl, Or.inl ⟨rfl, h0⟩⟩
    | tick _ hp => simp only [beep] at ht'; exact absurd ht' hne
    | request c _ hp =>
        obtain ⟨cmd, st⟩ := c
        cases cmd with
        | Stop => exact ⟨hp, rfl, Or.inr ⟨_, rfl, Or.inl rfl⟩⟩
        | Shutdown => exact ⟨hp, rfl, Or.inr ⟨_, rfl, Or.inr rfl⟩⟩
        | Interrogate => simp [onRequest] at ht'
        | PreShutdown => simp only [onRequest] at ht'; exact absurd ht' hne
        | Pause => simp only [onRequest, send] at ht'; exact absurd ht' hne
        | Continue => simp only [onRequest, send] at ht'; exact absurd ht' hne
        | unknown n => simp only [onRequest, logTo] at ht'; exact absurd ht' hne
    | echo _ _ hp => simp at ht'
    | final _ hp => simp at ht'
    | drainLaunched i _ _ => simp only [logTo] at ht'; exact absurd ht' hne
    | drainSend i _ _ => simp only [send] at ht'; exact absurd ht' hne
    | drainLast i _ _ _ => simp only [logTo] at ht'; exact absurd ht' hne
    | drainNext i _ _ _ => simp only [logTo] at ht'; exact absurd ht' hne
    | drainClose i _ _ => exact absurd ht' hne
  · intro h0
    have hlen := run_drains_length sched (Execute args) s h
    rw [h0] at hlen
    have hnil : s.drains = [] := List.length_eq_zero.mp (by simpa [Execute] using hlen)
    exact hB2 (by simp [hpc]) hnil

/-- Witness of `final_status_after_loop`: a Pause, then a Stop. -/
theorem final_status_after_loop_witness :
    ∃ s, run (Execute [])
        [Action.resume, Action.resume, Action.request ⟨Cmd.Pause, runningStatus⟩,
         Action.request ⟨Cmd.Stop, runningStatus⟩] = some s ∧
      s.checkpoint = 1 ∧
      step s Action.resume
        = some { send s Origin.main ⟨State.StopPending, Accepted.zero, s.checkpoint, 0⟩ with
                 pc := MainPc.returned } :=
  ⟨_, rfl, rfl,
    (final_status_after_loop []
      [Action.resume, Action.resume, Action.request ⟨Cmd.Pause, runningStatus⟩,
       Action.request ⟨Cmd.Stop, runningStatus⟩] _ rfl rfl (by decide)).1⟩

/-! ## Pause and Continue -/

/-- C11: in every state in which the main goroutine is at the select (process not
panicked), whatever the cadence, handling a Pause sends exactly one status, Paused with
the four accepted bits and every other field zero, and makes the slow tick source the
active one; handling a Continue sends exactly one status, Running with the same four bits
and every other field zero, and makes the fast one active.  Neither changes the counter,
writes a log entry, starts a drain or leaves the select. -/
theorem pause_continue_send_one_status (s : Sys) (st : Status)
    (hpc : s.pc = MainPc.select) (hc : s.closes < 2) :
    step s (Action.request ⟨Cmd.Pause, st⟩)
      = some { s with changes := s.changes ++ [⟨Origin.main, pausedStatus⟩],
                      tick := Ticker.slowtick } ∧
    step s (Action.request ⟨Cmd.Continue, st⟩)
      = some { s with changes := s.changes ++ [⟨Origin.main, runningStatus⟩],
                      tick := Ticker.fasttick } ∧
    pausedStatus = ⟨State.Paused, cmdsAccepted, 0, 0⟩ ∧
    runningStatus = ⟨State.Running, cmdsAccepted, 0, 0⟩ ∧
    (∀ c s', (c.Cmd = Cmd.Pause ∨ c.Cmd = Cmd.Continue) →
      step s (Action.request c) = some s' →
      s'.checkpoint = s.checkpoint ∧ s'.elog = s.elog ∧ s'.drains = s.drains ∧
      s'.closes = s.closes ∧ s'.pc = MainPc.select ∧ s'.beeps = s.beeps ∧
      (statuses s').length = (statuses s).length + 1) := by
  have hn : ¬ 2 ≤ s.closes := by omega
  have hP : ∀ st0, step s (Action.request ⟨Cmd.Pause, st0⟩)
      = some { s with changes := s.changes ++ [⟨Origin.main, pausedStatus⟩],
                      tick := Ticker.slowtick } := by
    intro st0
    simp [step, mainStep, hpc, hn, onRequest, send, pausedStatus, cmdsAccepted_eq]
  have hC : ∀ st0, step s (Action.request ⟨Cmd.Continue, st0⟩)
      = some { s with changes := s.changes ++ [⟨Origin.main, runningStatus⟩],
                      tick := Ticker.fasttick } := by
    intro st0
    simp [step, mainStep, hpc, hn, onRequest, send, runningStatus, cmdsAccepted_eq]
  refine ⟨hP st, hC st, by simp [pausedStatus, cmdsAccepted_eq],
    by simp [runningStatus, cmdsAccepted_eq], ?_⟩
  intro c s' hcmd hs
  obtain ⟨cmd, st'⟩ := c
  rcases hcmd with hcmd | hcmd <;> simp only at hcmd <;> subst hcmd
  · rw [hP st'] at hs
    cases hs
    simp [statuses, hpc]
  · rw [hC st'] at hs
    cases hs
    simp [statuses, hpc]

/-- Witness of `pause_continue_send_one_status`: the state in which the loop is entered. -/
theorem pause_continue_send_one_status_witness :
    step ⟨MainPc.select, Ticker.fasttick, 1, 0, [], opening, [], 0, false, 0⟩
        (Action.request ⟨Cmd.Pause, runningStatus⟩)
      = some ⟨MainPc.select, Ticker.slowtick, 1, 0, [],
          opening ++ [⟨Origin.main, pausedStatus⟩], [], 0, false, 0⟩ :=
  (pause_continue_send_one_status
    ⟨MainPc.select, Ticker.fasttick, 1, 0, [], opening, [], 0, false, 0⟩ runningStatus rfl
    (by decide)).1

/-! ## Runs with at most one drain -/

theorem lt_of_getElem?_some {α : Type} {l : List α} {i : Nat} {x : α}
    (h : l[i]? = some x) : i < l.length := by
  rcases Nat.lt_or_ge i l.length with h' | h'
  · exact h'
  · rw [List.getElem?_eq_none h'] at h; cases h

theorem step_drain_index {s s' : Sys} {i : Nat} (h : Step s (Action.drain i) s') :
    i < s.drains.length := by
  cases h with
  | drainLaunched _ _ hd => exact lt_of_getElem?_some hd
  | drainSend _ _ hd => exact lt_of_getElem?_some hd
  | drainLast _ _ hd _ => exact lt_of_getElem?_some hd
  | drainNext _ _ hd _ => exact lt_of_getElem?_some hd
  | drainClose _ _ hd => exact lt_of_getElem?_some hd

/-- A drain's step does not look at the position of the main goroutine. -/
theorem step_drain_repc {s s' : Sys} {i : Nat} (p : MainPc) (h : Step s (Action.drain i) s') :
    Step { s with pc := p } (Action.drain i) { s' with pc := p } := by
  cases h with
  | drainLaunched _ hc hd => exact Step.drainLaunched { s with pc := p } i hc hd
  | drainSend _ hc hd => exact Step.drainSend { s with pc := p } i hc hd
  | drainLast _ hc hd hgt => exact Step.drainLast { s with pc := p } i hc hd hgt
  | drainNext _ hc hd hle => exact Step.drainNext { s with pc := p } i hc hd hle
  | drainClose _ hc hd => exact Step.drainClose { s with pc := p } i hc hd

/-- One step of the only drain, wherever the main goroutine stands. -/
theorem oneDrain_drain {s s' : Sys} {i : Nat} {d : DrainPc} (hdr : s.drains = [d])
    (hst : drainStatuses 0 s = (List.range' 1 (drainSent d s.checkpoint)).map drainStatus)
    (hcl : s.closes = (if d = .ended then 1 else 0)) (hok : drainCounterOk d s.checkpoint)
    (h : Step s (Action.drain i) s') :
    ∃ d', s'.drains = [d'] ∧
      drainStatuses 0 s' = (List.range' 1 (drainSent d' s'.checkpoint)).map drainStatus ∧
      s'.closes = (if d' = .ended then 1 else 0) ∧ drainCounterOk d' s'.checkpoint := by
  have hi : i = 0 := by
    have := step_drain_index h
    rw [hdr] at this
    simpa using this
  subst hi
  have hS : SoloDrain { s with pc := MainPc.select } (drainPhase d s.checkpoint) :=
    ⟨rfl, d, hdr, hst, rfl, hcl, hok⟩
  obtain ⟨_, d', hdr', hst', _, hcl', hok'⟩ := soloDrain_drain hS (step_drain_repc _ h)
  exact ⟨d', hdr', hst', hcl', hok'⟩

theorem drainStatuses_frame {s s' : Sys} {x : Emission}
    (hch : s'.changes = s.changes ++ [x]) (hx : x.origin ≠ Origin.drain 0) :
    drainStatuses 0 s' = drainStatuses 0 s := by
  simp [drainStatuses, hch, List.filter_append, List.filter_cons, hx]

/-- A step that is none of line 24, the launch of a drain and a drain's own step keeps
`OneDrain`. -/
theorem oneDrain_frame {s s' : Sys} (hQ : OneDrain s) (hd : s'.drains = s.drains)
    (hc : s'.closes = s.closes) (hcp : s'.checkpoint = s.checkpoint)
    (hst : drainStatuses 0 s' = drainStatuses 0 s) (hpc : s.pc ≠ MainPc.entry)
    (hpc' : s'.pc ≠ MainPc.entry) : OneDrain s' := by
  obtain ⟨_, hB⟩ := hQ
  refine ⟨fun h => absurd h hpc', ?_⟩
  rcases hB with ⟨h1, h2, h3, h4⟩ | ⟨d, h1, h2, h3, h4⟩
  · exact Or.inl ⟨by rw [hd, h1], by rw [hc, h2], by rw [hst, h3],
      fun _ => by rw [hcp]; exact h4 hpc⟩
  · exact Or.inr ⟨d, by rw [hd, h1], by rw [hst, hcp, h2], by rw [hc, h3],
      by rw [hcp]; exact h4⟩

theorem oneDrain_step {s s' : Sys} {a : Action} (hlen : s'.drains.length ≤ 1)
    (hQ : OneDrain s) (h : Step s a s') : OneDrain s' := by
  cases a with
  | drain i =>
      obtain ⟨hE, hB⟩ := hQ
      have hi := step_drain_index h
      have hpc := step_drain_pc h
      rcases hB with ⟨h1, _, _, _⟩ | ⟨d, h1, h2, h3, h4⟩
      · rw [h1] at hi; simp at hi
      · refine ⟨fun hp => ?_, Or.inr (oneDrain_drain h1 h2 h3 h4 h)⟩
        rw [hpc] at hp
        rw [hE hp] at h1; cases h1
  | tick =>
      cases h with
      | tick _ hpc => exact oneDrain_frame hQ rfl rfl rfl rfl (by simp [hpc]) (by simp [beep, hpc])
  | shutdown =>
      cases h with
      | shutdown _ hpc _ => exact oneDrain_frame hQ rfl rfl rfl rfl (by simp [hpc]) (by simp)
  | resume =>
      cases h with
      | entry _ hpc =>
          obtain ⟨hE, hB⟩ := hQ
          have hnil := hE hpc
          rcases hB with ⟨_, h2, h3, _⟩ | ⟨d, h1, _⟩
          · refine ⟨by simp, Or.inl ⟨hnil, h2, ?_, fun _ => rfl⟩⟩
            rw [drainStatuses_frame (x := ⟨.main, ⟨.StartPending, Accepted.zero, 0, 0⟩⟩) rfl
              (by simp)]
            exact h3
          · rw [hnil] at h1; cases h1
      | starting _ hpc =>
          exact oneDrain_frame hQ rfl rfl rfl (drainStatuses_frame rfl (by simp))
            (by simp [hpc]) (by simp)
      | echo st _ hpc =>
          exact oneDrain_frame hQ rfl rfl rfl (drainStatuses_frame rfl (by simp))
            (by simp [hpc]) (by simp)
      | final _ hpc =>
          exact oneDrain_frame hQ rfl rfl rfl (drainStatuses_frame rfl (by simp))
            (by simp [hpc]) (by simp)
  | request c =>
      cases h with
      | request _ _ hpc =>
          obtain ⟨cmd, st⟩ := c
          cases cmd with
          | Interrogate =>
              exact oneDrain_frame hQ rfl rfl rfl (drainStatuses_frame rfl (by simp))
                (by simp [hpc]) (by simp [onRequest])
          | Stop => exact oneDrain_frame hQ rfl rfl rfl rfl (by simp [hpc]) (by simp [onRequest])
          | Shutdown =>
              exact oneDrain_frame hQ rfl rfl rfl rfl (by simp [hpc]) (by simp [onRequest])
          | Pause =>
              exact oneDrain_frame hQ rfl rfl rfl (drainStatuses_frame rfl (by simp))
                (by simp [hpc]) (by simp [onRequest, send, hpc])
          | Continue =>
              exact oneDrain_frame hQ rfl rfl rfl (drainStatuses_frame rfl (by simp))
                (by simp [hpc]) (by simp [onRequest, send, hpc])
          | unknown n =>
              exact oneDrain_frame hQ rfl rfl rfl rfl (by simp [hpc])
                (by simp [onRequest, logTo, hpc])
          | PreShutdown =>
              obtain ⟨_, hB⟩ := hQ
              simp only [onRequest, List.length_append, List.length_singleton] at hlen
              have hnil : s.drains = [] := List.length_eq_zero.mp (by omega)
              rcases hB with ⟨_, h2, h3, h4⟩ | ⟨d, h1, _⟩
              · refine ⟨fun hp => ?_, Or.inr ⟨.launched, ?_, ?_, ?_, ?_⟩⟩
                · simp only [onRequest] at hp; rw [hpc] at hp; cases hp
                · simp [onRequest, hnil]
                · simpa [onRequest, drainStatuses, drainSent] using h3
                · simpa [onRequest] using h2
                · simpa [onRequest, drainCounterOk] using h4 (by simp [hpc])
              · rw [hnil] at h1; cases h1

theorem oneDrain_run (args : List String) (sched : List Action) (s : Sys)
    (h : run (Execute args) sched = some s) (hlen : s.drains.length ≤ 1) : OneDrain s := by
  have hP := run_invariant (fun t => t.drains.length ≤ 1 → OneDrain t)
    (fun t a t' hP hS hlen' => by
      have := step_drains_length hS
      exact oneDrain_step hlen' (hP (by omega)) hS)
    sched (Execute args) s
    (fun _ => ⟨fun _ => rfl, Or.inl ⟨rfl, rfl, rfl, fun hp => absurd rfl hp⟩⟩) h
  exact hP hlen

theorem drainForm_step (s : Sys) (a : Action) (s' : Sys) (hP : DrainForm s)
    (h : Step s a s') : DrainForm s' := by
  have hlen : s.drains.length ≤ s'.drains.length := by
    rw [step_drains_length h]; omega
  cases step_sends h with
  | nothing hch =>
      intro e he i hi
      rw [hch] at he
      exact ⟨(hP e he i hi).1, lt_of_lt_of_le (hP e he i hi).2 hlen⟩
  | echo st hch =>
      intro e he i hi
      rw [hch] at he
      simp only [List.mem_append, List.mem_singleton] at he
      rcases he with he | rfl
      · exact ⟨(hP e he i hi).1, lt_of_lt_of_le (hP e he i hi).2 hlen⟩
      · simp at hi
  | plain st _ hch =>
      intro e he i hi
      rw [hch] at he
      simp only [List.mem_append, List.mem_singleton] at he
      rcases he with he | rfl
      · exact ⟨(hP e he i hi).1, lt_of_lt_of_le (hP e he i hi).2 hlen⟩
      · simp at hi
  | final hch =>
      intro e he i hi
      rw [hch] at he
      simp only [List.mem_append, List.mem_singleton] at he
      rcases he with he | rfl
      · exact ⟨(hP e he i hi).1, lt_of_lt_of_le (hP e he i hi).2 hlen⟩
      · simp at hi
  | drain j hd hch =>
      intro e he i hi
      rw [hch] at he
      simp only [List.mem_append, List.mem_singleton] at he
      rcases he with he | rfl
      · exact ⟨(hP e he i hi).1, lt_of_lt_of_le (hP e he i hi).2 hlen⟩
      · simp only [Origin.drain.injEq] at hi
        subst hi
        exact ⟨rfl, lt_of_lt_of_le (lt_of_getElem?_some hd) hlen⟩

theorem drainForm_run (args : List String) (sched : List Action) (s : Sys)
    (h : run (Execute args) sched = some s) : DrainForm s :=
  run_invariant DrainForm drainForm_step sched (Execute args) s
    (by intro e he; simp [Execute] at he) h

/-! ## The first drain of a run -/

theorem run_append_some {s s' : Sys} {p q : List Action} (h : run s (p ++ q) = some s') :
    ∃ s1, run s p = some s1 ∧ run s1 q = some s' := by
  rw [run_append] at h
  cases hp : run s p with
  | none => simp [hp] at h
  | some s1 => exact ⟨s1, rfl, by simpa [hp] using h⟩

/-- C5: in every run, whatever was handled before its first PreShutdown request, that
request is handled with the counter at 1 and no drain launched, and for every schedule of
ticks and steps of the drain after it the statuses the drain has sent are the StopPending
statuses with wait hint 3000 and checkpoints 1, 2, ... in this order, as many as half the
drain steps taken and at most 30: they depend on the drain's own steps only, not on the
number or the place of the ticks.  The drain can always take its next step until it has
taken 62, the completion signal is closed exactly then, and by then the drain has sent
exactly the 30 statuses with checkpoints 1 to 30. -/
theorem first_drain_sends_thirty (args : List String) (st : Status)
    (pre sched : List Action) (s : Sys)
    (hpre : pre.countP isPreShutdown = 0)
    (hT : ∀ a ∈ sched, a = Action.tick ∨ a = Action.drain 0)
    (h : run (Execute args) (pre ++ Action.request ⟨Cmd.PreShutdown, st⟩ :: sched)
      = some s) :
    (∃ s0, run (Execute args) pre = some s0 ∧ s0.checkpoint = 1 ∧ s0.drains = []) ∧
    drainStatuses 0 s
      = (List.range' 1 (min 30 (sched.count (Action.drain 0) / 2))).map drainStatus ∧
    (0 < s.closes ↔ sched.count (Action.drain 0) = 62) ∧
    (0 < s.closes → drainStatuses 0 s = (List.range' 1 30).map drainStatus ∧
      (drainStatuses 0 s).length = 30) ∧
    (sched.count (Action.drain 0) < 62 → ∃ s', step s (Action.drain 0) = some s') := by
  obtain ⟨s0, hrun0, hrest⟩ := run_append_some h
  obtain ⟨s1, hs1, hrun⟩ := run_cons_some hrest
  have hlen0 := run_drains_length pre (Execute args) s0 hrun0
  simp only [hpre, Execute, List.length_nil] at hlen0
  have hO := oneDrain_run args pre s0 hrun0 (by omega)
  have hpc0 : s0.pc = MainPc.select := by
    cases step_sound hs1 with
    | request _ _ hpc => exact hpc
  have hs1' : s1 = onRequest s0 ⟨Cmd.PreShutdown, st⟩ := by
    cases step_sound hs1 with
    | request _ _ _ => rfl
  subst hs1'
  have hnil : s0.drains = [] := List.length_eq_zero.mp hlen0
  have hfacts : s0.closes = 0 ∧ drainStatuses 0 s0 = [] ∧ s0.checkpoint = 1 := by
    rcases hO.2 with ⟨_, hc0, hst0, hcp0⟩ | ⟨d, hd, _⟩
    · exact ⟨hc0, hst0, hcp0 (by simp [hpc0])⟩
    · rw [hnil] at hd; cases hd
  obtain ⟨hc0, hst0, hcp0⟩ := hfacts
  have h0 : SoloDrain (onRequest s0 ⟨Cmd.PreShutdown, st⟩) 0 := by
    refine ⟨by simpa [onRequest] using hpc0, .launched, by simp [onRequest, hnil], ?_, rfl,
      by simpa [onRequest] using hc0, by simpa [onRequest, drainCounterOk] using hcp0⟩
    simpa [onRequest, drainStatuses, drainSent] using hst0
  refine ⟨⟨s0, hrun0, hcp0, hnil⟩, ?_⟩
  have hD := soloDrain_run sched _ s 0 h0 hT hrun
  simp only [Nat.zero_add] at hD
  obtain ⟨hpc, d, hdr, hst, hn, hcl, hok⟩ := hD
  have hsent : drainSent d s.checkpoint = min 30 (sched.count (Action.drain 0) / 2) := by
    rw [hn]
    cases d <;> simp only [drainSent, drainPhase, drainCounterOk] at hok ⊢ <;> omega
  have hiff : 0 < s.closes ↔ sched.count (Action.drain 0) = 62 := by
    rw [hn, hcl]
    cases d <;> simp only [drainPhase, drainCounterOk] at hok ⊢ <;> simp <;> omega
  refine ⟨by rw [hst, hsent], hiff, ?_, ?_⟩
  · intro hc
    have h62 := hiff.1 hc
    rw [hst, hsent, h62]
    simp
  · intro hlt
    have hn2 : ¬ 2 ≤ s.closes := by rw [hcl]; split <;> omega
    cases d with
    | launched => exact ⟨_, by simp [step, hn2, drainStep, hdr]; rfl⟩
    | sending => exact ⟨_, by simp [step, hn2, drainStep, hdr]; rfl⟩
    | sleeping =>
        have hs : step s (Action.drain 0) = drainStep s 0 := by simp [step, hn2]
        rw [hs]
        simp only [drainStep, hdr, List.getElem?_cons_zero]
        split
        · exact ⟨_, rfl⟩
        · exact ⟨_, rfl⟩
    | closing => exact ⟨_, by simp [step, hn2, drainStep, hdr]; rfl⟩
    | ended => simp only [drainPhase] at hn; omega

/-- Witness of `first_drain_sends_thirty`: a tick, a Pause and an Interrogate before the
PreShutdown, then ticks before, among and after the 62 steps of the drain. -/
theorem first_drain_sends_thirty_witness :
    ∃ s, run (Execute [])
        ([Action.resume, Action.resume, Action.tick,
          Action.request ⟨Cmd.Pause, runningStatus⟩,
          Action.request ⟨Cmd.Interrogate, pausedStatus⟩, Action.resume] ++
          Action.request ⟨Cmd.PreShutdown, pausedStatus⟩ ::
          (Action.tick :: List.replicate 40 (Action.drain 0) ++ Action.tick :: Action.tick ::
            List.replicate 22 (Action.drain 0) ++ [Action.tick])) = some s ∧
      0 < s.closes ∧ drainStatuses 0 s = (List.range' 1 30).map drainStatus :=
  ⟨_, rfl, by decide,
    ((first_drain_sends_thirty [] pausedStatus
      [Action.resume, Action.resume, Action.tick,
       Action.request ⟨Cmd.Pause, runningStatus⟩,
       Action.request ⟨Cmd.Interrogate, pausedStatus⟩, Action.resume]
      (Action.tick :: List.replicate 40 (Action.drain 0) ++ Action.tick :: Action.tick ::
        List.replicate 22 (Action.drain 0) ++ [Action.tick]) _ (by decide) (by decide)
      rfl).2.2.2.1 (by decide)).1⟩

/-! ## The statuses of the drain -/

/-- C12, counterexample: with two PreShutdown requests the two drains increment the one
counter.  The second PreShutdown is handled while the counter is 1, but the first status of
the drain it launches carries checkpoint 2; and the first drain sends checkpoint 3 after
checkpoint 1, not 2. -/
theorem second_drain_breaks_checkpoint_sequence :
    ∃ s0 s, run (Execute [])
        [Action.resume, Action.resume, Action.request ⟨Cmd.PreShutdown, runningStatus⟩,
         Action.drain 0, Action.drain 0] = some s0 ∧
      s0.checkpoint = 1 ∧ drainStatuses 0 s0 = [drainStatus 1] ∧
      run s0
        [Action.request ⟨Cmd.PreShutdown, drainStatus 1⟩, Action.drain 1, Action.drain 0,
         Action.drain 1, Action.drain 1, Action.drain 0, Action.drain 0, Action.drain 0]
        = some s ∧
      drainStatuses 0 s = [drainStatus 1, drainStatus 3, drainStatus 4] ∧
      drainStatuses 1 s = [drainStatus 2] ∧
      (drainStatus 2).CheckPoint ≠ s0.checkpoint ∧
      (drainStatus 3).CheckPoint ≠ (drainStatus 1).CheckPoint + 1 :=
  ⟨_, _, rfl, rfl, by decide, rfl, by decide, by decide, by decide, by decide⟩

/-- C12, amended: in a run with one PreShutdown request, handled in state `s0`, every
status sent by a drain is sent by the one drain of the run and has State StopPending,
WaitHint 3000 and no accepted bit; the drain's statuses carry, in order, the counter value of `s0` (which is
1), then that value plus 1, plus 2, and so on; and the wait hint 3000 is greater than the
1000 ms the drain sleeps between two sends. -/
theorem drain_statuses_form (args : List String) (pre post : List Action)
    (c : ChangeRequest) (s0 s : Sys)
    (h0 : run (Execute args) pre = some s0) (hcmd : c.Cmd = Cmd.PreShutdown)
    (h : run s0 (Action.request c :: post) = some s)
    (hone : (pre ++ post).countP isPreShutdown = 0) :
    (∀ e ∈ s.changes, ∀ i, e.origin = Origin.drain i →
      e.status.State = State.StopPending ∧ e.status.WaitHint = 3000 ∧
      e.status.Accepts = Accepted.zero ∧ i = 0) ∧
    (∃ n, drainStatuses 0 s = (List.range' s0.checkpoint n).map drainStatus) ∧
    s0.checkpoint = 1 ∧
    (∀ k, drainPause < (drainStatus k).WaitHint) ∧ drainPause = 1000 := by
  obtain ⟨cmd, st⟩ := c
  simp only at hcmd
  subst hcmd
  have hrun : run (Execute args) (pre ++ Action.request ⟨Cmd.PreShutdown, st⟩ :: post)
      = some s := by
    rw [run_append, h0]; exact h
  simp only [List.countP_append, Nat.add_eq_zero] at hone
  have hlen := run_drains_length _ (Execute args) s hrun
  simp only [List.countP_append, List.countP_cons, hone.1, hone.2, isPreShutdown,
    decide_True, if_true, Execute, List.length_nil] at hlen
  have hlen0 := run_drains_length pre (Execute args) s0 h0
  simp only [hone.1, Execute, List.length_nil] at hlen0
  have hcp0 : s0.checkpoint = 1 := by
    obtain ⟨s1, h1, _⟩ := run_cons_some h
    have hpc : s0.pc = MainPc.select := by
      cases step_sound h1 with
      | request _ _ hpc => exact hpc
    exact (beforeReturnInv_run args pre s0 h0).2 (by simp [hpc])
      (List.length_eq_zero.mp hlen0)
  have hF := drainForm_run args _ s hrun
  have hO := oneDrain_run args _ s hrun (by omega)
  refine ⟨?_, ?_, hcp0, fun k => by simp [drainPause, drainStatus], by decide⟩
  · intro e he i hi
    obtain ⟨hf, hil⟩ := hF e he i hi
    rw [hf]
    exact ⟨rfl, rfl, rfl, by omega⟩
  · rcases hO.2 with ⟨hnil, _⟩ | ⟨d, _, hst, _⟩
    · rw [hnil] at hlen; simp at hlen
    · exact ⟨_, by rw [hcp0]; exact hst⟩

/-- Witness of `drain_statuses_form`: a tick, the PreShutdown, two sends of the drain and a
Pause. -/
theorem drain_statuses_form_witness :
    ∃ s, run (Execute [])
        ([Action.resume, Action.resume, Action.tick] ++
          Action.request ⟨Cmd.PreShutdown, runningStatus⟩ ::
          [Action.drain 0, Action.drain 0, Action.drain 0, Action.drain 0, Action.tick,
           Action.request ⟨Cmd.Pause, runningStatus⟩]) = some s ∧
      drainStatuses 0 s = [drainStatus 1, drainStatus 2] ∧
      ∃ n, drainStatuses 0 s = (List.range' 1 n).map drainStatus :=
  ⟨_, rfl, by decide,
    (drain_statuses_form [] [Action.resume, Action.resume, Action.tick]
      [Action.drain 0, Action.drain 0, Action.drain 0, Action.drain 0, Action.tick,
       Action.request ⟨Cmd.Pause, runningStatus⟩]
      ⟨Cmd.PreShutdown, runningStatus⟩ _ _ rfl rfl rfl (by decide)).2.1⟩

/-! ## Ticks -/

theorem step_beeps {s s' : Sys} {a : Action} (h : Step s a s') :
    s'.beeps = s.beeps + (if a = Action.tick then 1 else 0) := by
  cases h with
  | request c _ _ =>
      obtain ⟨cmd, st⟩ := c
      cases cmd <;> simp [onRequest, send, logTo]
  | _ => simp [send, logTo, beep]

theorem run_beeps : ∀ (sched : List Action) (s s' : Sys), run s sched = some s' →
    s'.beeps = s.beeps + sched.count Action.tick := by
  intro sched
  induction sched with
  | nil => intro s s' h; simp [run] at h; subst h; simp
  | cons a sched ih =>
      intro s s' h
      obtain ⟨s1, h1, h2⟩ := run_cons_some h
      rw [ih s1 s' h2, step_beeps (step_sound h1), List.count_cons]
      by_cases ha : a = Action.tick
      · simp [ha]; omega
      · simp [ha]

/-- C13: in every state in which the main goroutine is at the select (process not
panicked), whichever tick source is active, handling a tick calls beep once and changes
nothing else: no status, no log entry, the same cadence, counter, drains and signal, and
the main goroutine stays at the select.  Hence after every run the number of beeps is the
number of ticks handled. -/
theorem tick_beeps_once (s : Sys) (hpc : s.pc = MainPc.select) (hc : s.closes < 2) :
    step s Action.tick = some { s with beeps := s.beeps + 1 } ∧
    (∀ s', step s Action.tick = some s' →
      s'.beeps = s.beeps + 1 ∧ s'.changes = s.changes ∧ s'.elog = s.elog ∧
      s'.tick = s.tick ∧ s'.checkpoint = s.checkpoint ∧ s'.drains = s.drains ∧
      s'.closes = s.closes ∧ s'.pc = s.pc) ∧
    (∀ (args : List String) (sched : List Action) (t : Sys),
      run (Execute args) sched = some t → t.beeps = sched.count Action.tick) := by
  have hn : ¬ 2 ≤ s.closes := by omega
  have hs : step s Action.tick = some { s with beeps := s.beeps + 1 } := by
    simp [step, mainStep, hpc, hn, beep]
  refine ⟨hs, ?_, ?_⟩
  · intro s' hs'
    rw [hs] at hs'
    cases hs'
    exact ⟨rfl, rfl, rfl, rfl, rfl, rfl, rfl, rfl⟩
  · intro args sched t h
    simpa [Execute] using run_beeps sched (Execute args) t h

/-- Witness of `tick_beeps_once`: a tick while paused, with a drain in its sleep. -/
theorem tick_beeps_once_witness :
    step ⟨MainPc.select, Ticker.slowtick, 1, 0, [DrainPc.sleeping], opening, [], 3, false, 0⟩
        Action.tick
      = some ⟨MainPc.select, Ticker.slowtick, 1, 0, [DrainPc.sleeping], opening, [], 4,
          false, 0⟩ :=
  (tick_beeps_once
    ⟨MainPc.select, Ticker.slowtick, 1, 0, [DrainPc.sleeping], opening, [], 3, false, 0⟩
    rfl (by decide)).1

/-! ## The final status after the drain -/

/-- A property kept by every step of an allowed action holds after every run of allowed
actions. -/
theorem run_invariant_on (P : Sys → Prop) (A : Action → Prop)
    (hstep : ∀ s a s', P s → A a → Step s a s' → P s') :
    ∀ (sched : List Action) (s s' : Sys), P s → (∀ a ∈ sched, A a) →
      run s sched = some s' → P s' := by
  intro sched
  induction sched with
  | nil => intro s s' hP _ h; simp [run] at h; subst h; exact hP
  | cons a sched ih =>
      intro s s' hP hA h
      obtain ⟨s1, h1, h2⟩ := run_cons_some h
      exact ih s1 s' (hstep s a s1 hP (hA a (by simp)) (step_sound h1))
        (fun b hb => hA b (by simp [hb])) h2

theorem mem_snoc_zero {l : List Emission} {x : Emission}
    (hl : ∀ e ∈ l, e.origin = Origin.main → e.status.CheckPoint = 0)
    (hx : x.origin = Origin.main → x.status.CheckPoint = 0) :
    ∀ e ∈ l ++ [x], e.origin = Origin.main → e.status.CheckPoint = 0 := by
  intro e he
  simp only [List.mem_append, List.mem_singleton] at he
  rcases he with he | rfl
  · exact hl e he
  · exact hx

theorem mainZero_step (s : Sys) (a : Action) (s' : Sys) (hP : MainZero s)
    (h : Step s a s') : MainZero s' := by
  cases h with
  | entry _ hpc => exact fun _ => mem_snoc_zero (hP (by simp [hpc])) (by simp)
  | starting _ hpc => exact fun _ => mem_snoc_zero (hP (by simp [hpc])) (by simp)
  | shutdown _ hpc _ => exact fun _ => hP (by simp [hpc])
  | tick _ hpc => exact fun _ => hP (by simp [hpc])
  | request c _ hpc =>
      have hP' := hP (by simp [hpc])
      obtain ⟨cmd, st⟩ := c
      cases cmd with
      | Interrogate => exact fun _ => mem_snoc_zero hP' (by simp)
      | Stop => exact fun _ => hP'
      | Shutdown => exact fun _ => hP'
      | PreShutdown => exact fun _ => hP'
      | Pause => exact fun _ => mem_snoc_zero hP' (by simp)
      | Continue => exact fun _ => mem_snoc_zero hP' (by simp)
      | unknown n => exact fun _ => hP'
  | echo st _ hpc => exact fun _ => mem_snoc_zero (hP (by simp [hpc])) (by simp)
  | final _ hpc => exact fun hne => absurd rfl hne
  | drainLaunched i _ _ => exact fun hne => hP hne
  | drainSend i _ _ => exact fun hne => mem_snoc_zero (hP hne) (by simp)
  | drainLast i _ _ _ => exact fun hne => hP hne
  | drainNext i _ _ _ => exact fun hne => hP hne
  | drainClose i _ _ => exact fun hne => hP hne

theorem mainZero_run (args : List String) (sched : List Action) (s : Sys)
    (h : run (Execute args) sched = some s) : MainZero s :=
  run_invariant MainZero mainZero_step sched (Execute args) s
    (by intro _ e he; simp [Execute] at he) h

theorem exitBySignal_step (s : Sys) (a : Action) (s' : Sys) (hP : ExitBySignal s)
    (ha : isStop a = false) (h : Step s a s') : ExitBySignal s' := by
  cases h with
  | entry _ hpc => intro hp; simp at hp
  | starting _ hpc => intro hp; simp at hp
  | shutdown _ hpc h0 => exact fun _ => h0
  | tick _ hpc => intro hp; simp [beep, hpc] at hp
  | request c _ hpc =>
      obtain ⟨cmd, st⟩ := c
      cases cmd with
      | Stop => simp [isStop] at ha
      | Shutdown => simp [isStop] at ha
      | Interrogate => intro hp; simp [onRequest] at hp
      | PreShutdown => intro hp; simp [onRequest, hpc] at hp
      | Pause => intro hp; simp [onRequest, send, hpc] at hp
      | Continue => intro hp; simp [onRequest, send, hpc] at hp
      | unknown n => intro hp; simp [onRequest, logTo, hpc] at hp
  | echo st _ hpc => intro hp; simp at hp
  | final _ hpc => exact fun _ => hP (Or.inl hpc)
  | drainLaunched i _ _ => exact fun hp => hP hp
  | drainSend i _ _ => exact fun hp => hP hp
  | drainLast i _ _ _ => exact fun hp => hP hp
  | drainNext i _ _ _ => exact fun hp => hP hp
  | drainClose i _ _ => exact fun _ => Nat.succ_pos _

/-- C14: in a run with one PreShutdown request and no Stop or Shutdown request, once the
loop is left (which then happened on the closed completion signal) the counter is 31, the
drain has sent exactly the statuses with checkpoints 1 to 30, the last of them 30, and the
main goroutine's next step sends the final status StopPending with checkpoint 31 and
returns; every status sent before by Execute's own statements (echoes of request snapshots
left out) has a checkpoint below 31. -/
theorem final_status_after_drain (args : List String) (sched : List Action) (s : Sys)
    (h : run (Execute args) sched = some s)
    (hone : sched.countP isPreShutdown = 1) (hns : ∀ a ∈ sched, isStop a = false)
    (hpc : s.pc = MainPc.afterLoop) :
    step s Action.resume
      = some { send s Origin.main ⟨State.StopPending, Accepted.zero, 31, 0⟩ with
               pc := MainPc.returned } ∧
    s.checkpoint = 31 ∧ 0 < s.closes ∧
    drainStatuses 0 s = (List.range' 1 30).map drainStatus ∧
    (drainStatuses 0 s).getLast? = some (drainStatus 30) ∧
    (∀ e ∈ s.changes, e.origin ≠ Origin.echo → e.status.CheckPoint < 31) := by
  have hlen := run_drains_length sched (Execute args) s h
  simp only [hone, Execute, List.length_nil] at hlen
  have hX : 0 < s.closes :=
    run_invariant_on ExitBySignal (fun a => isStop a = false) exitBySignal_step sched
      (Execute args) s (by intro hp; simp [Execute] at hp) hns h (Or.inl hpc)
  have hO := oneDrain_run args sched s h (by omega)
  have hF := drainForm_run args sched s h
  have hZ := mainZero_run args sched s h (by simp [hpc])
  rcases hO.2 with ⟨_, hc0, _⟩ | ⟨d, hdr, hst, hcl, hok⟩
  · omega
  · have hd : d = DrainPc.ended := by
      by_contra hne
      rw [if_neg hne] at hcl
      omega
    subst hd
    simp only [drainCounterOk] at hok
    simp only [drainSent] at hst
    simp only [if_true] at hcl
    have hn : ¬ 2 ≤ s.closes := by omega
    refine ⟨by simp [step, mainStep, hpc, hn, hok], hok, hX, hst, ?_, ?_⟩
    · rw [hst]; decide
    · intro e he hne
      cases ho : e.origin with
      | echo => exact absurd ho hne
      | main => rw [hZ e he ho]; omega
      | drain i =>
          have hi : i = 0 := by have := (hF e he i ho).2; omega
          subst hi
          have hmem : e.status ∈ drainStatuses 0 s := by
            simp only [drainStatuses, List.mem_map, List.mem_filter]
            exact ⟨e, ⟨he, by simp [ho]⟩, rfl⟩
          rw [hst] at hmem
          simp only [List.mem_map, List.mem_range'_1] at hmem
          obtain ⟨k, hk, hks⟩ := hmem
          rw [← hks]
          simp only [drainStatus]
          omega

/-- Witness of `final_status_after_drain`: a Pause and ticks around the 62 steps of the
drain, then the loop takes the closed signal. -/
theorem final_status_after_drain_witness :
    ∃ s, run (Execute [])
        ([Action.resume, Action.resume, Action.request ⟨Cmd.PreShutdown, runningStatus⟩,
          Action.request ⟨Cmd.Pause, runningStatus⟩, Action.tick]
          ++ List.replicate 62 (Action.drain 0) ++ [Action.tick, Action.shutdown]) = some s ∧
      step s Action.resume
        = some { send s Origin.main ⟨State.StopPending, Accepted.zero, 31, 0⟩ with
                 pc := MainPc.returned } :=
  ⟨_, rfl,
    (final_status_after_drain []
      ([Action.resume, Action.resume, Action.request ⟨Cmd.PreShutdown, runningStatus⟩,
        Action.request ⟨Cmd.Pause, runningStatus⟩, Action.tick]
        ++ List.replicate 62 (Action.drain 0) ++ [Action.tick, Action.shutdown]) _ rfl
      (by decide) (by decide) rfl).1⟩

/-! ## The results of `Execute` -/

theorem results_step (s : Sys) (a : Action) (s' : Sys)
    (hP : s.ssec = false ∧ s.errno = 0) (h : Step s a s') :
    s'.ssec = false ∧ s'.errno = 0 := by
  cases h with
  | request c _ _ =>
      obtain ⟨cmd, st⟩ := c
      cases cmd <;> simpa [onRequest, send, logTo] using hP
  | _ => simpa [send, logTo, beep] using hP

/-- C15: in every run, whatever the arguments and the schedule, the named results keep
their zero values, so when Execute has returned the pair it returns is (false, 0). -/
theorem execute_returns_false_zero (args : List String) (sched : List Action) (s : Sys)
    (h : run (Execute args) sched = some s) :
    (s.ssec, s.errno) = (false, 0) ∧
    (s.pc = MainPc.returned → s.ssec = false ∧ s.errno = 0) := by
  have hR := run_invariant (fun t => t.ssec = false ∧ t.errno = 0) results_step sched
    (Execute args) s ⟨rfl, rfl⟩ h
  exact ⟨by rw [hR.1, hR.2], fun _ => hR⟩

/-- Witness of `execute_returns_false_zero`: a run that returns after a Stop. -/
theorem execute_returns_false_zero_witness :
    ∃ s, run (Execute ["a"])
        [Action.resume, Action.resume, Action.tick,
         Action.request ⟨Cmd.Stop, runningStatus⟩, Action.resume] = some s ∧
      s.pc = MainPc.returned ∧ (s.ssec, s.errno) = (false, 0) :=
  ⟨_, rfl, rfl,
    (execute_returns_false_zero ["a"]
      [Action.resume, Action.resume, Action.tick,
       Action.request ⟨Cmd.Stop, runningStatus⟩, Action.resume] _ rfl).1⟩

/-! ## Pause and Continue, repeated -/

/-- C16: in every state in which the main goroutine is at the select (process not
panicked), whatever the cadence, handling Pause twice leads to the state that handling it
once leads to, except that the Paused status is sent twice; likewise for Continue and the
Running status.  So the second handling changes neither cadence nor counter nor anything
else but still sends its own status, also when the loop is already paused (or already
running). -/
theorem pause_continue_idempotent (s : Sys) (st st' : Status)
    (hpc : s.pc = MainPc.select) (hc : s.closes < 2) :
    run s [Action.request ⟨Cmd.Pause, st⟩]
      = some { s with tick := Ticker.slowtick,
                      changes := s.changes ++ [⟨Origin.main, pausedStatus⟩] } ∧
    run s [Action.request ⟨Cmd.Pause, st⟩, Action.request ⟨Cmd.Pause, st'⟩]
      = some { s with tick := Ticker.slowtick,
                      changes := s.changes ++
                        [⟨Origin.main, pausedStatus⟩, ⟨Origin.main, pausedStatus⟩] } ∧
    run s [Action.request ⟨Cmd.Continue, st⟩]
      = some { s with tick := Ticker.fasttick,
                      changes := s.changes ++ [⟨Origin.main, runningStatus⟩] } ∧
    run s [Action.request ⟨Cmd.Continue, st⟩, Action.request ⟨Cmd.Continue, st'⟩]
      = some { s with tick := Ticker.fasttick,
                      changes := s.changes ++
                        [⟨Origin.main, runningStatus⟩, ⟨Origin.main, runningStatus⟩] } := by
  have hn : ¬ 2 ≤ s.closes := by omega
  refine ⟨?_, ?_, ?_, ?_⟩ <;>
    simp [run, step, mainStep, hpc, hn, onRequest, send, pausedStatus, runningStatus,
      cmdsAccepted_eq]

/-- Witness of `pause_continue_idempotent`: a Pause in a state that is already paused. -/
theorem pause_continue_idempotent_witness :
    run ⟨MainPc.select, Ticker.slowtick, 1, 0, [], opening, [], 0, false, 0⟩
        [Action.request ⟨Cmd.Pause, pausedStatus⟩]
      = some ⟨MainPc.select, Ticker.slowtick, 1, 0, [],
          opening ++ [⟨Origin.main, pausedStatus⟩], [], 0, false, 0⟩ :=
  (pause_continue_idempotent
    ⟨MainPc.select, Ticker.slowtick, 1, 0, [], opening, [], 0, false, 0⟩
    pausedStatus pausedStatus rfl (by decide)).1

/-! ## The drain loop from any counter value -/

theorem getElem?_set_self {l : List DrainPc} {i : Nat} {d x : DrainPc}
    (h : l[i]? = some d) : (l.set i x)[i]? = some x := by
  simpa using getElem?_set_of_some l i i x d h

theorem drain_step_launched {s : Sys} {i : Nat} (hd : s.drains[i]? = some DrainPc.launched)
    (hc : s.closes < 2) :
    ∃ s1, step s (Action.drain i) = some s1 ∧ s1.drains[i]? = some DrainPc.sending ∧
      s1.closes = s.closes ∧ s1.checkpoint = s.checkpoint ∧ s1.changes = s.changes := by
  have hn : ¬ 2 ≤ s.closes := by omega
  exact ⟨{ logTo s ⟨.info, 1, .preshutdown⟩ with drains := s.drains.set i .sending },
    by simp [step, hn, drainStep, hd], getElem?_set_self hd, rfl, rfl, rfl⟩

theorem drain_step_send {s : Sys} {i : Nat} (hd : s.drains[i]? = some DrainPc.sending)
    (hc : s.closes < 2) :
    ∃ s1, step s (Action.drain i) = some s1 ∧ s1.drains[i]? = some DrainPc.sleeping ∧
      s1.closes = s.closes ∧ s1.checkpoint = s.checkpoint ∧
      s1.changes = s.changes ++ [drainEmission i s.checkpoint] := by
  have hn : ¬ 2 ≤ s.closes := by omega
  exact ⟨{ send s (.drain i) ⟨.StopPending, Accepted.zero, s.checkpoint, 3000⟩ with
           drains := s.drains.set i .sleeping },
    by simp [step, hn, drainStep, hd], getElem?_set_self hd, rfl, rfl, rfl⟩

theorem drain_step_sleep_next {s : Sys} {i : Nat}
    (hd : s.drains[i]? = some DrainPc.sleeping) (hc : s.closes < 2)
    (hle : s.checkpoint + 1 ≤ 30) :
    ∃ s1, step s (Action.drain i) = some s1 ∧ s1.drains[i]? = some DrainPc.sending ∧
      s1.closes = s.closes ∧ s1.checkpoint = s.checkpoint + 1 ∧ s1.changes = s.changes := by
  have hn : ¬ 2 ≤ s.closes := by omega
  have hmod : (s.checkpoint + 1) % 2 ^ 32 = s.checkpoint + 1 := Nat.mod_eq_of_lt (by omega)
  have hng : ¬ (s.checkpoint + 1) % 2 ^ 32 > 30 := by rw [hmod]; omega
  refine ⟨{ logTo s ⟨.info, 1, .preshutdownTick⟩ with
            checkpoint := (s.checkpoint + 1) % 2 ^ 32, drains := s.drains.set i .sending },
    ?_, getElem?_set_self hd, rfl, hmod, rfl⟩
  simp only [step, hn, drainStep, hd, if_false]
  rw [if_neg hng]

theorem drain_step_sleep_last {s : Sys} {i : Nat}
    (hd : s.drains[i]? = some DrainPc.sleeping) (hc : s.closes < 2)
    (hgt : 30 < s.checkpoint + 1) (hw : s.checkpoint + 1 < 2 ^ 32) :
    ∃ s1, step s (Action.drain i) = some s1 ∧ s1.drains[i]? = some DrainPc.closing ∧
      s1.closes = s.closes ∧ s1.checkpoint = s.checkpoint + 1 ∧ s1.changes = s.changes := by
  have hn : ¬ 2 ≤ s.closes := by omega
  have hmod : (s.checkpoint + 1) % 2 ^ 32 = s.checkpoint + 1 := Nat.mod_eq_of_lt hw
  have hg : (s.checkpoint + 1) % 2 ^ 32 > 30 := by rw [hmod]; omega
  refine ⟨{ logTo s ⟨.info, 1, .keepAliveEnd⟩ with
            checkpoint := (s.checkpoint + 1) % 2 ^ 32, drains := s.drains.set i .closing },
    ?_, getElem?_set_self hd, rfl, hmod, rfl⟩
  simp only [step, hn, drainStep, hd, if_false]
  rw [if_pos hg]

theorem drain_step_close {s : Sys} {i : Nat} (hd : s.drains[i]? = some DrainPc.closing)
    (hc : s.closes < 2) :
    ∃ s1, step s (Action.drain i) = some s1 ∧ s1.drains[i]? = some DrainPc.ended ∧
      s1.closes = s.closes + 1 ∧ s1.checkpoint = s.checkpoint ∧ s1.changes = s.changes := by
  have hn : ¬ 2 ≤ s.closes := by omega
  exact ⟨{ s with closes := s.closes + 1, drains := s.drains.set i .ended },
    by simp [step, hn, drainStep, hd], getElem?_set_self hd, rfl, rfl, rfl⟩

/-- The iterations of the drain loop that stay within the bound: `m` times a send and a
sleep, from the counter `cp` to `cp + m`. -/
theorem drain_iterations (i : Nat) : ∀ (m : Nat) (s : Sys) (cp : Nat),
    s.drains[i]? = some DrainPc.sending → s.closes < 2 → s.checkpoint = cp →
    (0 < m → cp + m ≤ 30) →
    ∃ s', run s (List.replicate (2 * m) (Action.drain i)) = some s' ∧
      s'.drains[i]? = some DrainPc.sending ∧ s'.closes = s.closes ∧
      s'.checkpoint = cp + m ∧
      s'.changes = s.changes ++ (List.range' cp m).map (drainEmission i) := by
  intro m
  induction m with
  | zero => intro s cp hd _ hcp _; exact ⟨s, rfl, hd, rfl, by simpa using hcp, by simp⟩
  | succ m ih =>
      intro s cp hd hc hcp hle0
      have hle := hle0 (Nat.succ_pos m)
      obtain ⟨s1, h1, hd1, hc1, hcp1, hch1⟩ := drain_step_send hd hc
      obtain ⟨s2, h2, hd2, hc2, hcp2, hch2⟩ :=
        drain_step_sleep_next hd1 (by omega) (by omega)
      obtain ⟨s', h3, hd3, hc3, hcp3, hch3⟩ :=
        ih s2 (cp + 1) hd2 (by omega) (by omega) (fun _ => by omega)
      refine ⟨s', ?_, hd3, by omega, by omega, ?_⟩
      · have hrep : List.replicate (2 * (m + 1)) (Action.drain i)
            = Action.drain i :: Action.drain i :: List.replicate (2 * m) (Action.drain i) := by
          rw [show 2 * (m + 1) = 2 * m + 1 + 1 by omega]; rfl
        rw [hrep]
        simp only [run, h1, h2]
        exact h3
      · rw [hch3, hch2, hch1, hcp, List.range'_succ]
        simp

/-- The last iteration of the drain loop and the deferred close: a send, the sleep after
which the counter exceeds 30, and the close. -/
theorem drain_last_iteration {s : Sys} {i : Nat} (hd : s.drains[i]? = some DrainPc.sending)
    (hc : s.closes < 2) (hge : 30 ≤ s.checkpoint) (hw : s.checkpoint + 1 < 2 ^ 32) :
    ∃ s', run s (List.replicate 3 (Action.drain i)) = some s' ∧
      s'.drains[i]? = some DrainPc.ended ∧ s'.closes = s.closes + 1 ∧
      s'.checkpoint = s.checkpoint + 1 ∧
      s'.changes = s.changes ++ [drainEmission i s.checkpoint] := by
  obtain ⟨s1, h1, hd1, hc1, hcp1, hch1⟩ := drain_step_send hd hc
  obtain ⟨s2, h2, hd2, hc2, hcp2, hch2⟩ :=
    drain_step_sleep_last hd1 (by omega) (by omega) (by omega)
  obtain ⟨s3, h3, hd3, hc3, hcp3, hch3⟩ := drain_step_close hd2 (by omega)
  refine ⟨s3, ?_, hd3, by omega, by omega, by rw [hch3, hch2, hch1]⟩
  simp [List.replicate, run, h1, h2, h3]

/-- C17: a drain launched while the counter is `c`, with `c < 2^32 - 1` and the signal
open, and running alone ends after `4 + 2 * (30 - c)` steps: it has then closed the
signal, the counter is `max 31 (c + 1)`, and what it has sent is, for `c ≤ 30`, the
`31 - c` statuses with checkpoints `c, c + 1, ..., 30`, and for `c > 30` the one status
with checkpoint `c` (the send comes before the test of the bound); after that the drain
takes no further step. -/
theorem drain_from_counter (s : Sys) (i c : Nat)
    (hd : s.drains[i]? = some DrainPc.launched) (hcl : s.closes = 0)
    (hc : s.checkpoint = c) (hlt : c < 2 ^ 32 - 1) :
    ∃ s', run s (List.replicate (4 + 2 * (30 - c)) (Action.drain i)) = some s' ∧
      s'.drains[i]? = some DrainPc.ended ∧ s'.closes = 1 ∧
      s'.checkpoint = max 31 (c + 1) ∧
      (c ≤ 30 → s'.changes = s.changes ++ (List.range' c (31 - c)).map (drainEmission i) ∧
        ((List.range' c (31 - c)).map (drainEmission i)).length = 31 - c) ∧
      (30 < c → s'.changes = s.changes ++ [drainEmission i c]) ∧
      step s' (Action.drain i) = none := by
  obtain ⟨s1, h1, hd1, hc1, hcp1, hch1⟩ := drain_step_launched hd (by omega)
  obtain ⟨s2, h2, hd2, hc2, hcp2, hch2⟩ :=
    drain_iterations i (30 - c) s1 c hd1 (by omega) (by omega) (fun _ => by omega)
  obtain ⟨s3, h3, hd3, hc3, hcp3, hch3⟩ :=
    drain_last_iteration hd2 (by omega) (by omega) (by omega)
  have hrun : run s (List.replicate (4 + 2 * (30 - c)) (Action.drain i)) = some s3 := by
    have hrep : List.replicate (4 + 2 * (30 - c)) (Action.drain i)
        = Action.drain i :: (List.replicate (2 * (30 - c)) (Action.drain i)
            ++ List.replicate 3 (Action.drain i)) := by
      rw [show 4 + 2 * (30 - c) = (2 * (30 - c) + 3) + 1 by omega, List.replicate_succ,
        List.replicate_add]
    rw [hrep]
    simp only [run, h1]
    rw [run_append, h2]
    exact h3
  refine ⟨s3, hrun, hd3, by omega, by omega, ?_, ?_, ?_⟩
  · intro hle
    refine ⟨?_, by simp⟩
    rw [hch3, hch2, hch1, hcp2, List.append_assoc]
    congr 1
    rw [show 31 - c = (30 - c) + 1 by omega, List.range'_concat]
    simp
  · intro hgt
    rw [hch3, hch2, hch1, hcp2]
    simp [show 30 - c = 0 by omega]
  · simp [step, drainStep, hd3]

/-- Witness of `drain_from_counter`: a drain launched at counter 28. -/
theorem drain_from_counter_witness :
    ∃ s', run ⟨MainPc.select, Ticker.fasttick, 28, 0, [DrainPc.launched], opening, [], 0,
          false, 0⟩ (List.replicate (4 + 2 * (30 - 28)) (Action.drain 0)) = some s' ∧
      s'.drains[0]? = some DrainPc.ended ∧ s'.closes = 1 ∧ s'.checkpoint = max 31 (28 + 1) :=
  match drain_from_counter
      ⟨MainPc.select, Ticker.fasttick, 28, 0, [DrainPc.launched], opening, [], 0, false, 0⟩
      0 28 rfl rfl rfl (by decide) with
  | ⟨s', h1, h2, h3, h4, _⟩ => ⟨s', h1, h2, h3, h4⟩

/-- At the one counter value left out above, `2^32 - 1`, the increment after the first send
wraps to 0: the drain sends 32 statuses (checkpoints `2^32 - 1`, then 0 to 30) and ends
after 66 steps with the counter at 31. -/
theorem drain_from_max_counter :
    ∃ s', run ⟨MainPc.select, Ticker.fasttick, 2 ^ 32 - 1, 0, [DrainPc.launched], [], [], 0,
          false, 0⟩ (List.replicate 66 (Action.drain 0)) = some s' ∧
      s'.drains = [DrainPc.ended] ∧ s'.closes = 1 ∧ s'.checkpoint = 31 ∧
      s'.changes = drainEmission 0 (2 ^ 32 - 1) :: (List.range' 0 31).map (drainEmission 0) :=
  ⟨_, rfl, rfl, rfl, rfl, by decide⟩

end Service
